import Mathlib

/-!
Verification of the topology generator and model builders of the
quantum-optimization-performance repository.

The Python sources are shallowly embedded:

* `structures.py` / class `Proxytree` — the topology generator.  Python
  integers become `Int` (or `Nat` for indices/counts), Python lists become
  `List`, the `link_dict` dictionary becomes an association list built in
  insertion order (all its keys are distinct, so `List.find?` agrees with
  Python dict lookup), and the `adjancy_list` matrix is built by folding the
  same sequence of cell updates over an all-zero matrix.
* `fun_lib_DWAVE.py` / `fun_lib_IBM.py` — the model builders.  A dimod /
  docplex binary variable is represented by its name; linear (affine)
  expressions are represented symbolically by `Aff` (a list of
  coefficient-variable terms plus a constant), and each `add_constraint`
  call produces a `Constraint` value.  A Python expression that raises
  (`None` arithmetic from a missing `dict.get`) is modelled by `Option`:
  `none` is a raised exception.
* randomness (`random.randint`, `random.shuffle`) is modelled by passing the
  drawn values (`cpu_util`, `data_rate`, the shuffled `index_list`) as
  explicit parameters; the non-random branch fixes them to the deterministic
  values from the source.
-/

namespace QOP

/-! ### Generic list helpers -/

/-- `getD` of a mapped range resolves to the function value. -/
theorem getD_map_range {α : Type} (f : Nat → α) {n i : Nat} (h : i < n) (d : α) :
    ((List.range n).map f).getD i d = f i := by
  rw [List.getD_eq_getElem?_getD, List.getElem?_map, List.getElem?_range h]
  rfl

/-- `getD` of a `List.range` resolves to the index. -/
theorem getD_range {n i : Nat} (h : i < n) (d : Nat) :
    (List.range n).getD i d = i := by
  rw [List.getD_eq_getElem?_getD, List.getElem?_range h]
  rfl

/-- Pairwise property of a `flatMap` from blockwise and cross-block facts. -/
theorem pairwise_flatMap {α β : Type} {R : β → β → Prop} {l : List α} {f : α → List β}
    (hin : ∀ a ∈ l, (f a).Pairwise R)
    (hcross : l.Pairwise (fun a b => ∀ x ∈ f a, ∀ y ∈ f b, R x y)) :
    (l.flatMap f).Pairwise R := by
  induction l with
  | nil => simp
  | cons a t ih =>
    rw [List.flatMap_cons, List.pairwise_append]
    refine ⟨hin a (List.mem_cons_self a t), ih (fun x hx => hin x (List.mem_cons_of_mem a hx))
      (List.Pairwise.of_cons hcross), ?_⟩
    intro x hx y hy
    rw [List.mem_flatMap] at hy
    obtain ⟨b, hb, hyb⟩ := hy
    exact (List.pairwise_cons.mp hcross).1 b hb x hx y hyb

/-- Pairwise `<` on `List.range'`. -/
theorem pairwise_lt_range' (s n : Nat) : (List.range' s n).Pairwise (· < ·) := by
  rw [List.range'_eq_map_range, List.pairwise_map]
  exact (List.pairwise_lt_range n).imp (by omega)

/-! ### Topology generator (`structures.py`, class `Proxytree`) -/

/-- `self.SERVERS = pow(2, self.DEPTH)` -/
def SERVERSn (depth : Nat) : Nat := 2 ^ depth

/-- `self.SWITCHES = sum(pow(2,lvl) for lvl in range(self.DEPTH))` -/
def SWITCHESn (depth : Nat) : Nat := ((List.range depth).map (fun lvl => 2 ^ lvl)).sum

/-- `self.VMS = self.SERVERS` -/
def VMSn (depth : Nat) : Nat := SERVERSn depth

/-- `self.FLOWS = self.VMS//2 if self.VMS%2==0 else self.VMS//2+1` -/
def FLOWSn (depth : Nat) : Nat :=
  if VMSn depth % 2 = 0 then VMSn depth / 2 else VMSn depth / 2 + 1

/-- `self.NODES = self.SERVERS + self.SWITCHES` -/
def NODESn (depth : Nat) : Nat := SERVERSn depth + SWITCHESn depth

/-- `Proxytree.__init_links`: the loop
`for i in range(self.DEPTH-1): self.LINKS += 2**i * 2**(i+1)` followed by
`self.LINKS += 2*(2**(self.DEPTH-1))`. -/
def initLinks (depth : Nat) : Nat :=
  (List.range (depth - 1)).foldl (fun acc i => acc + 2 ^ i * 2 ^ (i + 1)) 0
    + 2 * 2 ^ (depth - 1)

/-- `Proxytree.__init_link_capacity`: the switch-link loop carries the mutable
`start_link_c`, decremented by `LINK_C_DECREASE` after every level; then the
server links get the final value. -/
def initLinkCapacity (depth : Nat) (link_C link_C_DECREASE : Int) : List Int :=
  let st := (List.range (depth - 1)).foldl
    (fun (acc : List Int × Int) lvl =>
      (acc.1 ++ List.replicate (2 ^ (2 * lvl + 1)) acc.2, acc.2 - link_C_DECREASE))
    ([], link_C)
  st.1 ++ List.replicate (2 ^ depth) st.2

/-- `Proxytree.__init_idle_dyn_powcons`: one loop over `range(self.DEPTH+1)`
appending `2**lvl` copies of the carried `start_idle_pc` / `start_dyn_pc`,
then decrementing both. -/
def initIdleDynPowcons (depth : Nat) (idle_PC idle_DEC dyn_PC dyn_DEC : Int) :
    List Int × List Int :=
  ((List.range (depth + 1)).foldl
    (fun (acc : (List Int × List Int) × (Int × Int)) lvl =>
      ((acc.1.1 ++ List.replicate (2 ^ lvl) acc.2.1,
        acc.1.2 ++ List.replicate (2 ^ lvl) acc.2.2),
       (acc.2.1 - idle_DEC, acc.2.2 - dyn_DEC)))
    (([], []), (idle_PC, dyn_PC))).1

/-- One iteration of the switch-to-switch loop of
`Proxytree.__init_link_dict_adj_list` (the `(father, son)` pairs generated at
level `lvl`, in order), including the special `lvl == 0` branch. -/
def swBranch (lvl : Nat) : List (Nat × Nat) :=
  if lvl = 0 then
    (List.range' 1 2).map (fun i => (0, i))
  else
    let first_sw := 2 ^ lvl - 1
    let last_sw := first_sw * 2
    (List.range' first_sw (last_sw + 1 - first_sw)).flatMap (fun father =>
      let first_son := 2 ^ (lvl + 1) - 1
      let last_son := first_son * 2
      (List.range' first_son (last_son + 1 - first_son)).map (fun son =>
        (father, son)))

/-- The switch-to-switch links of `Proxytree.__init_link_dict_adj_list`, as the
ordered list of `(father, son)` node pairs in generation order (one pair per
link id). -/
def swLinkPairs (depth : Nat) : List (Nat × Nat) :=
  (List.range (depth - 1)).flatMap swBranch

/-- The switch-to-server links of `Proxytree.__init_link_dict_adj_list`:
`for father in range(ll_firstsw, ll_lastsw+1): for i in range(2):
son = father*2+1+i`. -/
def serverLinkPairs (depth : Nat) : List (Nat × Nat) :=
  let ll_firstsw := 2 ^ (depth - 1) - 1
  let ll_lastsw := ll_firstsw * 2
  (List.range' ll_firstsw (ll_lastsw + 1 - ll_firstsw)).flatMap (fun father =>
    (List.range 2).map (fun i => (father, father * 2 + 1 + i)))

/-- All link pairs in link-id order (switch links first, then server links),
exactly the order in which `__init_link_dict_adj_list` increments
`link_counter`. -/
def linkPairs (depth : Nat) : List (Nat × Nat) :=
  swLinkPairs depth ++ serverLinkPairs depth

/-- Build the `link_dict` association list: for the `k`-th generated pair the
Python code inserts `str((father,son)) -> k` and `str((son,father)) -> k`.
Keys are kept structured (the Python `str` formatting of a pair is
invertible, cf. `get_nodes`).  All keys are distinct, so `List.find?` over
this list in insertion order coincides with Python dict lookup. -/
def dictFrom : Nat → List (Nat × Nat) → List ((Nat × Nat) × Nat)
  | _, [] => []
  | k, p :: ps => (p, k) :: ((p.2, p.1), k) :: dictFrom (k + 1) ps

/-- Python `link_dict.get(str((a,b)))` / `link_dict[str((a,b))]`. -/
def dictGet (d : List ((Nat × Nat) × Nat)) (k : Nat × Nat) : Option Nat :=
  (d.find? (fun e => e.1 == k)).map (fun e => e.2)

/-- Update one cell of the adjacency matrix: `m[a][b] = v`.  (Python list
assignment; an out-of-range index never occurs in the generated code paths,
and `List.set` out of range is a no-op.) -/
def setMat (m : List (List Nat)) (a b v : Nat) : List (List Nat) :=
  m.set a ((m.getD a []).set b v)

/-- The `adjancy_list` matrix: start from the all-zero `NODES×NODES` matrix
and run the same cell updates as `__init_link_dict_adj_list`
(`adjancy_list[father][son] = 1; adjancy_list[son][father] = 1` per link). -/
def initAdj (nodes : Nat) (pairs : List (Nat × Nat)) : List (List Nat) :=
  pairs.foldl (fun m p => setMat (setMat m p.1 p.2 1) p.2 p.1 1)
    (List.replicate nodes (List.replicate nodes 0))

/-- Read a matrix cell `m[a][b]` (0 outside the matrix, which never happens
in the embedded code paths). -/
def matGet (m : List (List Nat)) (a b : Nat) : Nat := (m.getD a []).getD b 0

/-- `Proxytree.__init_src_dst`: `src_dst[i][j] = index_list[i*2 + j]`, as the
pair `(index_list[2i], index_list[2i+1])`.  `index_list` is `range(VMS)`,
shuffled when `random_tree` is set. -/
def initSrcDst (flows : Nat) (index_list : List Nat) : List (Nat × Nat) :=
  (List.range flows).map (fun i =>
    (index_list.getD (i * 2) 0, index_list.getD (i * 2 + 1) 0))

/-- The fields of the Python `Proxytree` object. -/
structure Proxytree where
  DEPTH : Nat
  SERVER_C : Int
  LINK_C : Int
  IDLE_PC : Int
  DYN_PC : Int
  DATAR_AVG : Int
  SERVERS : Nat
  SWITCHES : Nat
  VMS : Nat
  FLOWS : Nat
  NODES : Nat
  LINKS : Nat
  server_capacity : List Int
  link_capacity : List Int
  idle_powcons : List Int
  dyn_powcons : List Int
  cpu_util : List Int
  data_rate : List Int
  link_dict : List ((Nat × Nat) × Nat)
  adjancy_list : List (List Nat)
  src_dst : List (Nat × Nat)
deriving DecidableEq

/-- `Proxytree.__init__`, with the values produced by the two `random`
calls (`cpu_util`, `data_rate`, the shuffled `index_list`) passed in
explicitly.  `LINK_C_DECREASE = 2`, `IDLE_PC_DECREASE = 5`,
`DYN_PC_DECREASE = 1` are the fixed constants from the source. -/
def proxytree (depth : Nat) (server_c link_c idle_pc dyn_pc datar_avg : Int)
    (cpu_util data_rate : List Int) (index_list : List Nat) : Proxytree :=
  let pows := initIdleDynPowcons depth (idle_pc * depth) 5 (dyn_pc * depth) 1
  { DEPTH := depth
    SERVER_C := server_c
    LINK_C := link_c * depth
    IDLE_PC := idle_pc * depth
    DYN_PC := dyn_pc * depth
    DATAR_AVG := datar_avg
    SERVERS := SERVERSn depth
    SWITCHES := SWITCHESn depth
    VMS := VMSn depth
    FLOWS := FLOWSn depth
    NODES := NODESn depth
    LINKS := initLinks depth
    server_capacity := List.replicate (SERVERSn depth) server_c
    link_capacity := initLinkCapacity depth (link_c * depth) 2
    idle_powcons := pows.1
    dyn_powcons := pows.2
    cpu_util := cpu_util
    data_rate := data_rate
    link_dict := dictFrom 0 (linkPairs depth)
    adjancy_list := initAdj (NODESn depth) (linkPairs depth)
    src_dst := initSrcDst (FLOWSn depth) index_list }

/-- `Proxytree(depth, ..., random_tree=False)`: the non-random branch fixes
`cpu_util = [server_c//2+1]*VMS`, `data_rate = [datar_avg]*FLOWS`, and
`index_list = list(range(VMS))` unshuffled.  (`//` is Python floor
division, i.e. `Int.fdiv`.) -/
def proxytreeDet (depth : Nat) (server_c link_c idle_pc dyn_pc datar_avg : Int) :
    Proxytree :=
  proxytree depth server_c link_c idle_pc dyn_pc datar_avg
    (List.replicate (VMSn depth) (Int.fdiv server_c 2 + 1))
    (List.replicate (FLOWSn depth) datar_avg)
    (List.range (VMSn depth))

/-- `get_nodes(l, dictionary)` from `structures.py`: the first key (in
insertion order) whose value is `l`; Python's `ValueError` on a missing
value is `none`.  (The string round-trip `str((n1,n2))` → parse is the
identity on the structured keys.) -/
def get_nodes (l : Nat) (d : List ((Nat × Nat) × Nat)) : Option (Nat × Nat) :=
  (d.find? (fun e => e.2 == l)).map (fun e => e.1)

/-! ### Model builder embedding (`fun_lib_DWAVE.py`, `fun_lib_IBM.py`)

A dimod/docplex binary variable is represented by its name string; the
naming functions below reproduce the `"...".format(...)` calls of the
source.  Affine expressions over those variables are kept symbolically
(`Aff`), each `add_constraint` call yields a `Constraint`, and a Python
`TypeError` raised by arithmetic on a missing (`None`) `dict.get` lookup is
modelled by `Option` (`none` = raised). -/

/-- `"s{}".format(s)` — server-status variable name. -/
def sName (s : Nat) : String := "s" ++ toString s

/-- `"vm{}-s{}".format(vm, s)` — VM-placement variable name. -/
def vmName (vm s : Nat) : String := "vm" ++ toString vm ++ "-s" ++ toString s

/-- `"sw{}".format(sw)` — switch-status variable name. -/
def swName (sw : Nat) : String := "sw" ++ toString sw

/-- `"f{}-n{}-n{}".format(f, n1, n2)` — flow-edge variable name. -/
def fpName (f n1 n2 : Nat) : String :=
  "f" ++ toString f ++ "-n" ++ toString n1 ++ "-n" ++ toString n2

/-- `"on{}-{}".format(n1, n2)` — link-status variable name. -/
def onName (n1 n2 : Nat) : String := "on" ++ toString n1 ++ "-" ++ toString n2

/-- A symbolic affine expression: coefficient/variable terms plus a
constant.  (Every objective/constraint expression in the sources is affine
in the binary variables.) -/
structure Aff where
  terms : List (Int × String)
  const : Int
deriving DecidableEq

/-- A single binary variable. -/
def Aff.var (v : String) : Aff := ⟨[(1, v)], 0⟩

/-- An integer constant. -/
def Aff.cst (c : Int) : Aff := ⟨[], c⟩

def Aff.add (a b : Aff) : Aff := ⟨a.terms ++ b.terms, a.const + b.const⟩

def Aff.sub (a b : Aff) : Aff :=
  ⟨a.terms ++ b.terms.map (fun tv => (-tv.1, tv.2)), a.const - b.const⟩

/-- Multiplication of an expression by an integer coefficient. -/
def Aff.smul (c : Int) (a : Aff) : Aff :=
  ⟨a.terms.map (fun tv => (c * tv.1, tv.2)), c * a.const⟩

/-- `dimod.quicksum` / Python `sum` of a generator of expressions. -/
def Aff.sum (l : List Aff) : Aff := l.foldl Aff.add (Aff.cst 0)

/-- Evaluate an expression at a (total) variable assignment. -/
def Aff.eval (σ : String → Int) (a : Aff) : Int :=
  (a.terms.map (fun tv => tv.1 * σ tv.2)).sum + a.const

/-- Comparison sense of a generated constraint. -/
inductive Cmp
  | le
  | eq
deriving DecidableEq

/-- One `add_constraint(lhs <cmp> rhs, label=...)` call (docplex constraints
carry the empty label). -/
structure Constraint where
  label : String
  lhs : Aff
  cmp : Cmp
  rhs : Int
deriving DecidableEq

/-- A solver assignment, i.e. a Python dict from variable names to values;
`aget` is `dict.get` (with `None` = `none` for a missing key). -/
abbrev Assignment : Type := List (String × Int)

def aget (σ : Assignment) (k : String) : Option Int :=
  (σ.find? (fun e => e.1 == k)).map (fun e => e.2)

/-- Sequence the constraint generation of a loop in which an iteration may
raise (`none`): the Python function raises iff any iteration raises. -/
def optTraverse {α : Type} : List (Option α) → Option (List α)
  | [] => some []
  | none :: _ => none
  | some a :: t => (optTraverse t).map (fun r => a :: r)

/-- `server_status = [Binary("s{}".format(s)) for s in range(SERVERS)]` -/
def serverStatusList (t : Proxytree) : List Aff :=
  (List.range t.SERVERS).map (fun s => Aff.var (sName s))

/-- `vm_status = [[Binary("vm{}-s{}".format(vm,s)) for vm in range(VMS)]
for s in range(SERVERS)]` — outer index is the SERVER, inner the VM. -/
def vmStatusLists (t : Proxytree) : List (List Aff) :=
  (List.range t.SERVERS).map (fun s =>
    (List.range t.VMS).map (fun vm => Aff.var (vmName vm s)))

/-- `switch_status = [Binary("sw{}".format(sw)) for sw in range(SWITCHES)]` -/
def switchStatusList (t : Proxytree) : List Aff :=
  (List.range t.SWITCHES).map (fun sw => Aff.var (swName sw))

/-- DWAVE constraint labels `"<fam>-N{}".format(k)`. -/
def dwaveLbl (fam : String) (k : Nat) : String := fam ++ "-N" ++ toString k

/-- docplex constraints carry no label. -/
def noLbl (_ : Nat) : String := ""

/-- Objective term 1: `quicksum(server_status[s] * idle_powcons[s+SWITCHES]
for s in range(SERVERS))`. -/
def objTerm1 (t : Proxytree) : Aff :=
  Aff.sum ((List.range t.SERVERS).map (fun s =>
    Aff.smul (t.idle_powcons.getD (s + t.SWITCHES) 0)
      ((serverStatusList t).getD s (Aff.cst 0))))

/-- Objective term 2 (DWAVE `vm_model`/`full_model`):
`quicksum(dyn_powcons[s+SWITCHES] * quicksum(cpu_util[vm] * vm_status[s][vm]
for vm) for s)`. -/
def objTerm2 (t : Proxytree) : Aff :=
  Aff.sum ((List.range t.SERVERS).map (fun s =>
    Aff.smul (t.dyn_powcons.getD (s + t.SWITCHES) 0)
      (Aff.sum ((List.range t.VMS).map (fun vm =>
        Aff.smul (t.cpu_util.getD vm 0)
          (((vmStatusLists t).getD s []).getD vm (Aff.cst 0)))))))

/-- Objective term 2 as written in the IBM `vm_cplex_model`/`full_cplex_model`:
`sum(dyn_powcons[s+SWITCHES] * sum(vm_status[vm][s] * cpu_util[vm] for vm)
for s)` — note the TRANSPOSED indexing `vm_status[vm][s]`. -/
def objTerm2T (t : Proxytree) : Aff :=
  Aff.sum ((List.range t.SERVERS).map (fun s =>
    Aff.smul (t.dyn_powcons.getD (s + t.SWITCHES) 0)
      (Aff.sum ((List.range t.VMS).map (fun vm =>
        Aff.smul (t.cpu_util.getD vm 0)
          (((vmStatusLists t).getD vm []).getD s (Aff.cst 0)))))))

/-- Objective term 3: `quicksum(switch_status[sw] * idle_powcons[sw] for sw)`. -/
def objTerm3 (t : Proxytree) : Aff :=
  Aff.sum ((List.range t.SWITCHES).map (fun sw =>
    Aff.smul (t.idle_powcons.getD sw 0)
      ((switchStatusList t).getD sw (Aff.cst 0))))

/-- Objective term 4: `quicksum(dyn_powcons[sw] * (flow_path[f,n,sw] +
flow_path[f,sw,n]) for n for f for sw if adjancy_list[n][sw] == 1)`. -/
def objTerm4 (t : Proxytree) : Aff :=
  Aff.sum ((List.range t.NODES).flatMap (fun n =>
    (List.range t.FLOWS).flatMap (fun f =>
      ((List.range t.SWITCHES).filter (fun sw => matGet t.adjancy_list n sw == 1)).map
        (fun sw =>
          Aff.smul (t.dyn_powcons.getD sw 0)
            (Aff.add (Aff.var (fpName f n sw)) (Aff.var (fpName f sw n)))))))

/-- C11, one constraint per server:
`quicksum(cpu_util[vm]*vm_status[s][vm] for vm) - server_capacity[s]*server_status[s] <= 0`. -/
def c11gen (t : Proxytree) (lbl : Nat → String) : List Constraint :=
  (List.range t.SERVERS).map (fun s =>
    { label := lbl s
      lhs := Aff.sub
        (Aff.sum ((List.range t.VMS).map (fun vm =>
          Aff.smul (t.cpu_util.getD vm 0)
            (((vmStatusLists t).getD s []).getD vm (Aff.cst 0)))))
        (Aff.smul (t.server_capacity.getD s 0) ((serverStatusList t).getD s (Aff.cst 0)))
      cmp := Cmp.le
      rhs := 0 })

/-- C12, one constraint per VM: `quicksum(vm_status[s][vm] for s) == 1`. -/
def c12gen (t : Proxytree) (lbl : Nat → String) : List Constraint :=
  (List.range t.VMS).map (fun vm =>
    { label := lbl vm
      lhs := Aff.sum ((List.range t.SERVERS).map (fun s =>
        ((vmStatusLists t).getD s []).getD vm (Aff.cst 0)))
      cmp := Cmp.eq
      rhs := 1 })

/-- C13 of `path_model` / `path_cplex_model`: for each flow and server node,
GENERATED ONLY IF `vm_solution.get("vm<src>-s<s-SWITCHES>") == 0` (a missing
key gives `None`, which compares unequal to 0, so the constraint is also
skipped): the outgoing flow-edge sum `== 0`. -/
def pathC13gen (t : Proxytree) (σ : Assignment) (lbl : Nat → String) : List Constraint :=
  (List.range t.FLOWS).flatMap (fun f =>
    ((List.range' t.SWITCHES t.SERVERS).filter (fun s =>
        aget σ (vmName (t.src_dst.getD f (0, 0)).1 (s - t.SWITCHES)) == some 0)).map
      (fun s =>
        { label := lbl (f * t.SERVERS + s)
          lhs := Aff.sum (((List.range t.SWITCHES).filter
              (fun sw => matGet t.adjancy_list s sw == 1)).map
            (fun sw => Aff.var (fpName f s sw)))
          cmp := Cmp.eq
          rhs := 0 }))

/-- C14 of `path_model` / `path_cplex_model`: symmetric to C13 for the
incoming edges and the flow's destination VM. -/
def pathC14gen (t : Proxytree) (σ : Assignment) (lbl : Nat → String) : List Constraint :=
  (List.range t.FLOWS).flatMap (fun f =>
    ((List.range' t.SWITCHES t.SERVERS).filter (fun s =>
        aget σ (vmName (t.src_dst.getD f (0, 0)).2 (s - t.SWITCHES)) == some 0)).map
      (fun s =>
        { label := lbl (f * t.SERVERS + s)
          lhs := Aff.sum (((List.range t.SWITCHES).filter
              (fun sw => matGet t.adjancy_list sw s == 1)).map
            (fun sw => Aff.var (fpName f sw s)))
          cmp := Cmp.eq
          rhs := 0 }))

/-- C15 of `path_model` / `path_cplex_model`:
`vm_solution.get(src) - vm_solution.get(dst) - (out - in) == 0`; arithmetic
on a missing (`None`) lookup raises, i.e. yields `none`. -/
def pathC15gen (t : Proxytree) (σ : Assignment) (lbl : Nat → String) :
    Option (List Constraint) :=
  optTraverse ((List.range t.FLOWS).flatMap (fun f =>
    (List.range' t.SWITCHES t.SERVERS).map (fun s =>
      match aget σ (vmName (t.src_dst.getD f (0, 0)).1 (s - t.SWITCHES)),
            aget σ (vmName (t.src_dst.getD f (0, 0)).2 (s - t.SWITCHES)) with
      | some a, some b =>
          some
            { label := lbl (f * t.SERVERS + s)
              lhs := Aff.sub (Aff.sub (Aff.cst a) (Aff.cst b))
                (Aff.sub
                  (Aff.sum (((List.range t.SWITCHES).filter
                      (fun sw => matGet t.adjancy_list s sw == 1)).map
                    (fun sw => Aff.var (fpName f s sw))))
                  (Aff.sum (((List.range t.SWITCHES).filter
                      (fun sw => matGet t.adjancy_list sw s == 1)).map
                    (fun sw => Aff.var (fpName f sw s)))))
              cmp := Cmp.eq
              rhs := 0 }
      | _, _ => none)))

/-- C13 of `full_model` / `full_cplex_model`: always generated, as
`out - vm_status[src_dst[f][0]][s-SWITCHES] <= 0` (note the transposed
`vm_status` indexing in the source: outer index is the flow's VM id). -/
def fullC13gen (t : Proxytree) (lbl : Nat → String) : List Constraint :=
  (List.range t.FLOWS).flatMap (fun f =>
    (List.range' t.SWITCHES t.SERVERS).map (fun s =>
      { label := lbl (f * t.SERVERS + s)
        lhs := Aff.sub
          (Aff.sum (((List.range t.SWITCHES).filter
              (fun sw => matGet t.adjancy_list s sw == 1)).map
            (fun sw => Aff.var (fpName f s sw))))
          (((vmStatusLists t).getD (t.src_dst.getD f (0, 0)).1 []).getD
            (s - t.SWITCHES) (Aff.cst 0))
        cmp := Cmp.le
        rhs := 0 }))

/-- C14 of `full_model` / `full_cplex_model`. -/
def fullC14gen (t : Proxytree) (lbl : Nat → String) : List Constraint :=
  (List.range t.FLOWS).flatMap (fun f =>
    (List.range' t.SWITCHES t.SERVERS).map (fun s =>
      { label := lbl (f * t.SERVERS + s)
        lhs := Aff.sub
          (Aff.sum (((List.range t.SWITCHES).filter
              (fun sw => matGet t.adjancy_list sw s == 1)).map
            (fun sw => Aff.var (fpName f sw s))))
          (((vmStatusLists t).getD (t.src_dst.getD f (0, 0)).2 []).getD
            (s - t.SWITCHES) (Aff.cst 0))
        cmp := Cmp.le
        rhs := 0 }))

/-- C15 of `full_model` / `full_cplex_model`:
`vm_status[src][s-SW] - vm_status[dst][s-SW] - (out - in) == 0`. -/
def fullC15gen (t : Proxytree) (lbl : Nat → String) : List Constraint :=
  (List.range t.FLOWS).flatMap (fun f =>
    (List.range' t.SWITCHES t.SERVERS).map (fun s =>
      { label := lbl (f * t.SERVERS + s)
        lhs := Aff.sub
          (Aff.sub
            (((vmStatusLists t).getD (t.src_dst.getD f (0, 0)).1 []).getD
              (s - t.SWITCHES) (Aff.cst 0))
            (((vmStatusLists t).getD (t.src_dst.getD f (0, 0)).2 []).getD
              (s - t.SWITCHES) (Aff.cst 0)))
          (Aff.sub
            (Aff.sum (((List.range t.SWITCHES).filter
                (fun sw => matGet t.adjancy_list s sw == 1)).map
              (fun sw => Aff.var (fpName f s sw))))
            (Aff.sum (((List.range t.SWITCHES).filter
                (fun sw => matGet t.adjancy_list sw s == 1)).map
              (fun sw => Aff.var (fpName f sw s)))))
        cmp := Cmp.eq
        rhs := 0 }))

/-- C16 (identical in the routing and joint models): per switch and flow,
inflow − outflow `== 0` over all adjacent nodes. -/
def c16gen (t : Proxytree) (lbl : Nat → String) : List Constraint :=
  (List.range t.SWITCHES).flatMap (fun sw =>
    (List.range t.FLOWS).map (fun f =>
      { label := lbl (sw * t.FLOWS + f)
        lhs := Aff.sub
          (Aff.sum (((List.range t.NODES).filter
              (fun n => matGet t.adjancy_list n sw == 1)).map
            (fun n => Aff.var (fpName f n sw))))
          (Aff.sum (((List.range t.NODES).filter
              (fun n => matGet t.adjancy_list sw n == 1)).map
            (fun n => Aff.var (fpName f sw n))))
        cmp := Cmp.eq
        rhs := 0 }))

/-- The C17 constraint for link `l` with endpoints `(n1, n2)` (identical in
the routing and joint models). -/
def c17At (t : Proxytree) (lbl : Nat → String) (l n1 n2 : Nat) : Constraint :=
  { label := lbl l
    lhs := Aff.sub
      (Aff.sum ((List.range t.FLOWS).map (fun f =>
        Aff.smul (t.data_rate.getD f 0)
          (Aff.add (Aff.var (fpName f n1 n2)) (Aff.var (fpName f n2 n1))))))
      (Aff.smul (t.link_capacity.getD l 0) (Aff.var (onName n1 n2)))
    cmp := Cmp.le
    rhs := 0 }

/-- C17 family: `for l in range(LINKS): n1,n2 = get_nodes(l, link_dict); ...`
(a failed `get_nodes` raises). -/
def c17gen (t : Proxytree) (lbl : Nat → String) : Option (List Constraint) :=
  optTraverse ((List.range t.LINKS).map (fun l =>
    (get_nodes l t.link_dict).map (fun p => c17At t lbl l p.1 p.2)))

/-- The C18 constraint for link `l`: `on[n1,n2] - switch_status[n1] <= 0`
(identical in the routing and joint models). -/
def c18At (t : Proxytree) (lbl : Nat → String) (l n1 n2 : Nat) : Constraint :=
  { label := lbl l
    lhs := Aff.sub (Aff.var (onName n1 n2))
      ((switchStatusList t).getD n1 (Aff.cst 0))
    cmp := Cmp.le
    rhs := 0 }

/-- The C19 constraint of the routing model for link `l`: against
`switch_status[n2]` (`<= 0`) when `n2` is a switch, otherwise an EQUALITY
against the constant `vm_solution.get("s<n2-SWITCHES>")` (raising, i.e.
`none`, when the key is missing). -/
def pathC19At (t : Proxytree) (σ : Assignment) (lbl : Nat → String) (l n1 n2 : Nat) :
    Option Constraint :=
  if n2 < t.SWITCHES then
    some
      { label := lbl l
        lhs := Aff.sub (Aff.var (onName n1 n2))
          ((switchStatusList t).getD n2 (Aff.cst 0))
        cmp := Cmp.le
        rhs := 0 }
  else
    (aget σ (sName (n2 - t.SWITCHES))).map (fun x =>
      { label := lbl l
        lhs := Aff.sub (Aff.var (onName n1 n2)) (Aff.cst x)
        cmp := Cmp.eq
        rhs := 0 })

/-- The C19 constraint of the joint model for link `l`: an INEQUALITY against
the live `switch_status[n2]` or `server_status[n2-SWITCHES]` variable. -/
def fullC19At (t : Proxytree) (lbl : Nat → String) (l n1 n2 : Nat) : Constraint :=
  if n2 < t.SWITCHES then
    { label := lbl l
      lhs := Aff.sub (Aff.var (onName n1 n2))
        ((switchStatusList t).getD n2 (Aff.cst 0))
      cmp := Cmp.le
      rhs := 0 }
  else
    { label := lbl l
      lhs := Aff.sub (Aff.var (onName n1 n2))
        ((serverStatusList t).getD (n2 - t.SWITCHES) (Aff.cst 0))
      cmp := Cmp.le
      rhs := 0 }

/-- The interleaved C18/C19 loop of `path_model` / `path_cplex_model`. -/
def pathC1819gen (t : Proxytree) (σ : Assignment) (lbl18 lbl19 : Nat → String) :
    Option (List Constraint) :=
  optTraverse ((List.range t.LINKS).flatMap (fun l =>
    match get_nodes l t.link_dict with
    | none => [none]
    | some p => [some (c18At t lbl18 l p.1 p.2), pathC19At t σ lbl19 l p.1 p.2]))

/-- The interleaved C18/C19 loop of `full_model` / `full_cplex_model`. -/
def fullC1819gen (t : Proxytree) (lbl18 lbl19 : Nat → String) :
    Option (List Constraint) :=
  optTraverse ((List.range t.LINKS).flatMap (fun l =>
    match get_nodes l t.link_dict with
    | none => [none]
    | some p => [some (c18At t lbl18 l p.1 p.2), some (fullC19At t lbl19 l p.1 p.2)]))

/-- `vm_model` (`fun_lib_DWAVE.py`): objective terms 1-2, constraints C11-C12. -/
def vm_model (t : Proxytree) : Aff × List Constraint :=
  (Aff.add (objTerm1 t) (objTerm2 t),
   c11gen t (dwaveLbl "C11") ++ c12gen t (dwaveLbl "C12"))

/-- `vm_cplex_model` (`fun_lib_IBM.py`): constraints (3)-(4) = C11-C12
without labels, objective with the TRANSPOSED second term. -/
def vm_cplex_model (t : Proxytree) : Aff × List Constraint :=
  (Aff.add (objTerm1 t) (objTerm2T t),
   c11gen t noLbl ++ c12gen t noLbl)

/-- `path_model` (`fun_lib_DWAVE.py`, `load=False`): objective terms 3-4 and
constraints C13-C19 with the placement read from `vm_solution`; `none` iff
any constraint-generation step raises. -/
def path_model (t : Proxytree) (σ : Assignment) : Option (Aff × List Constraint) :=
  match pathC15gen t σ (dwaveLbl "C15"), c17gen t (dwaveLbl "C17"),
      pathC1819gen t σ (dwaveLbl "C18") (dwaveLbl "C19") with
  | some c15, some c17, some c1819 =>
      some (Aff.add (objTerm3 t) (objTerm4 t),
        pathC13gen t σ (dwaveLbl "C13") ++ pathC14gen t σ (dwaveLbl "C14")
          ++ c15 ++ c16gen t (dwaveLbl "C16") ++ c17 ++ c1819)
  | _, _, _ => none

/-- `path_cplex_model` (`fun_lib_IBM.py`): the same constraint families in
the same order, without labels. -/
def path_cplex_model (t : Proxytree) (σ : Assignment) : Option (Aff × List Constraint) :=
  match pathC15gen t σ noLbl, c17gen t noLbl, pathC1819gen t σ noLbl noLbl with
  | some c15, some c17, some c1819 =>
      some (Aff.add (objTerm3 t) (objTerm4 t),
        pathC13gen t σ noLbl ++ pathC14gen t σ noLbl
          ++ c15 ++ c16gen t noLbl ++ c17 ++ c1819)
  | _, _, _ => none

/-- `full_model` (`fun_lib_DWAVE.py`): objective terms 1-4 and constraints
C11-C19, all variables live. -/
def full_model (t : Proxytree) : Option (Aff × List Constraint) :=
  match c17gen t (dwaveLbl "C17"), fullC1819gen t (dwaveLbl "C18") (dwaveLbl "C19") with
  | some c17, some c1819 =>
      some (Aff.add (Aff.add (Aff.add (objTerm1 t) (objTerm2 t)) (objTerm3 t)) (objTerm4 t),
        c11gen t (dwaveLbl "C11") ++ c12gen t (dwaveLbl "C12")
          ++ fullC13gen t (dwaveLbl "C13") ++ fullC14gen t (dwaveLbl "C14")
          ++ fullC15gen t (dwaveLbl "C15") ++ c16gen t (dwaveLbl "C16") ++ c17 ++ c1819)
  | _, _ => none

/-- Pinning (from the spec's cross-consistency property): substitute every
variable the assignment knows by its value, leaving the remaining terms in
place. -/
def Aff.pin (σ : Assignment) (a : Aff) : Aff :=
  ⟨a.terms.filter (fun tv => (aget σ tv.2).isNone),
   a.const + (a.terms.map (fun tv =>
     match aget σ tv.2 with
     | some x => tv.1 * x
     | none => 0)).sum⟩

/-- Pin all variables of a constraint known to the assignment. -/
def Constraint.pin (σ : Assignment) (c : Constraint) : Constraint :=
  { c with lhs := c.lhs.pin σ }

/-- Strict lexicographic order on node pairs — the order in which
`__init_link_dict_adj_list` generates them (used to prove the generated
pairs are pairwise distinct). -/
def lexLt (p q : Nat × Nat) : Prop :=
  p.1 < q.1 ∨ (p.1 = q.1 ∧ p.2 < q.2)

/-! ### Closed forms for the derived counts -/

theorem foldl_add_range (f : Nat → Nat) (n a : Nat) :
    (List.range n).foldl (fun acc i => acc + f i) a = a + ∑ i ∈ Finset.range n, f i := by
  induction n with
  | zero => simp
  | succ n ih =>
    rw [List.range_succ, List.foldl_append, ih, Finset.sum_range_succ]
    simp [Nat.add_assoc]

theorem sum_two_pow (n : Nat) : ∑ i ∈ Finset.range n, 2 ^ i = 2 ^ n - 1 := by
  induction n with
  | zero => simp
  | succ n ih =>
    rw [Finset.sum_range_succ, ih]
    have : 1 ≤ 2 ^ n := Nat.one_le_two_pow
    omega

theorem SWITCHESn_eq (depth : Nat) : SWITCHESn depth = 2 ^ depth - 1 := by
  have : SWITCHESn depth = ∑ i ∈ Finset.range depth, 2 ^ i := by
    unfold SWITCHESn
    induction depth with
    | zero => simp
    | succ n ih => rw [List.range_succ, List.map_append, List.sum_append, ih,
        Finset.sum_range_succ]; simp
  rw [this, sum_two_pow]

theorem initLinks_eq (depth : Nat) :
    initLinks depth
      = (∑ l ∈ Finset.range (depth - 1), 2 ^ l * 2 ^ (l + 1)) + 2 * 2 ^ (depth - 1) := by
  unfold initLinks
  rw [foldl_add_range]
  omega

/-! ### Closed forms for the capacity / power lists -/

theorem initLinkCapacity_eq (depth : Nat) (c d : Int) :
    initLinkCapacity depth c d
      = (List.range (depth - 1)).flatMap
          (fun lvl => List.replicate (2 ^ (2 * lvl + 1)) (c - d * lvl))
        ++ List.replicate (2 ^ depth) (c - d * (depth - 1 : Nat)) := by
  have key : ∀ n : Nat,
      (List.range n).foldl
        (fun (acc : List Int × Int) lvl =>
          (acc.1 ++ List.replicate (2 ^ (2 * lvl + 1)) acc.2, acc.2 - d))
        ([], c)
      = ((List.range n).flatMap
          (fun lvl => List.replicate (2 ^ (2 * lvl + 1)) (c - d * lvl)),
         c - d * n) := by
    intro n
    induction n with
    | zero => simp
    | succ n ih =>
      rw [List.range_succ, List.foldl_append, ih, List.flatMap_append]
      simp only [List.foldl_cons, List.foldl_nil, List.flatMap_cons, List.flatMap_nil,
        List.append_nil, Prod.mk.injEq]
      refine ⟨trivial, ?_⟩
      push_cast; ring
  unfold initLinkCapacity
  rw [key]

theorem initIdleDynPowcons_eq (depth : Nat) (iPC iDEC dPC dDEC : Int) :
    initIdleDynPowcons depth iPC iDEC dPC dDEC
      = ((List.range (depth + 1)).flatMap
           (fun lvl => List.replicate (2 ^ lvl) (iPC - iDEC * lvl)),
         (List.range (depth + 1)).flatMap
           (fun lvl => List.replicate (2 ^ lvl) (dPC - dDEC * lvl))) := by
  have key : ∀ n : Nat,
      (List.range n).foldl
        (fun (acc : (List Int × List Int) × (Int × Int)) lvl =>
          ((acc.1.1 ++ List.replicate (2 ^ lvl) acc.2.1,
            acc.1.2 ++ List.replicate (2 ^ lvl) acc.2.2),
           (acc.2.1 - iDEC, acc.2.2 - dDEC)))
        (([], []), (iPC, dPC))
      = (((List.range n).flatMap (fun lvl => List.replicate (2 ^ lvl) (iPC - iDEC * lvl)),
          (List.range n).flatMap (fun lvl => List.replicate (2 ^ lvl) (dPC - dDEC * lvl))),
         (iPC - iDEC * n, dPC - dDEC * n)) := by
    intro n
    induction n with
    | zero => simp
    | succ n ih =>
      rw [List.range_succ, List.foldl_append, ih, List.flatMap_append,
        List.flatMap_append]
      simp only [List.foldl_cons, List.foldl_nil, List.flatMap_cons, List.flatMap_nil,
        List.append_nil, Prod.mk.injEq]
      refine ⟨trivial, ?_, ?_⟩ <;> · push_cast; ring
  unfold initIdleDynPowcons
  rw [key]

/-!
### C1 — derived counts

Claim: for every depth ≥ 1 and positive base parameters,
`SERVERS = 2^depth`, `SWITCHES = 2^depth − 1`, `VMS = SERVERS`,
`FLOWS = VMS/2` (the division is even), `NODES = SERVERS + SWITCHES`,
`LINKS = Σ_{l<depth−1} 2^l·2^(l+1) + 2·2^(depth−1)`.
-/

/-- C1: the `Proxytree` counts satisfy the spec formulas for every
`depth ≥ 1` and positive base parameters. -/
theorem counts_spec (depth : Nat) (server_c link_c idle_pc dyn_pc datar_avg : Int)
    (cpu dr : List Int) (il : List Nat) (hd : 1 ≤ depth)
    (_hs : 0 < server_c) (_hl : 0 < link_c) (_hi : 0 < idle_pc) (_hy : 0 < dyn_pc)
    (_ha : 0 < datar_avg) :
    (proxytree depth server_c link_c idle_pc dyn_pc datar_avg cpu dr il).SERVERS
        = 2 ^ depth
    ∧ (proxytree depth server_c link_c idle_pc dyn_pc datar_avg cpu dr il).SWITCHES
        = 2 ^ depth - 1
    ∧ (proxytree depth server_c link_c idle_pc dyn_pc datar_avg cpu dr il).VMS
        = (proxytree depth server_c link_c idle_pc dyn_pc datar_avg cpu dr il).SERVERS
    ∧ (proxytree depth server_c link_c idle_pc dyn_pc datar_avg cpu dr il).VMS % 2 = 0
    ∧ (proxytree depth server_c link_c idle_pc dyn_pc datar_avg cpu dr il).FLOWS
        = (proxytree depth server_c link_c idle_pc dyn_pc datar_avg cpu dr il).VMS / 2
    ∧ (proxytree depth server_c link_c idle_pc dyn_pc datar_avg cpu dr il).NODES
        = (proxytree depth server_c link_c idle_pc dyn_pc datar_avg cpu dr il).SERVERS
          + (proxytree depth server_c link_c idle_pc dyn_pc datar_avg cpu dr il).SWITCHES
    ∧ (proxytree depth server_c link_c idle_pc dyn_pc datar_avg cpu dr il).LINKS
        = (∑ l ∈ Finset.range (depth - 1), 2 ^ l * 2 ^ (l + 1)) + 2 * 2 ^ (depth - 1) := by
  have hvms : VMSn depth % 2 = 0 := by
    unfold VMSn SERVERSn
    obtain ⟨k, rfl⟩ := Nat.exists_eq_add_of_le hd
    rw [pow_add, pow_one]
    omega
  refine ⟨rfl, SWITCHESn_eq depth, rfl, hvms, ?_, rfl, initLinks_eq depth⟩
  show FLOWSn depth = VMSn depth / 2
  unfold FLOWSn
  rw [if_pos hvms]

/-- C1 witness at `depth = 2` with the base parameters of `main_DWAVE.py`. -/
theorem counts_spec_witness :
    (1 ≤ 2 ∧ (0:Int) < 10 ∧ (0:Int) < 5 ∧ (0:Int) < 10 ∧ (0:Int) < 2 ∧ (0:Int) < 4)
    ∧ ((proxytreeDet 2 10 5 10 2 4).SERVERS = 2 ^ 2
       ∧ (proxytreeDet 2 10 5 10 2 4).SWITCHES = 2 ^ 2 - 1
       ∧ (proxytreeDet 2 10 5 10 2 4).VMS = (proxytreeDet 2 10 5 10 2 4).SERVERS
       ∧ (proxytreeDet 2 10 5 10 2 4).VMS % 2 = 0
       ∧ (proxytreeDet 2 10 5 10 2 4).FLOWS = (proxytreeDet 2 10 5 10 2 4).VMS / 2
       ∧ (proxytreeDet 2 10 5 10 2 4).NODES
           = (proxytreeDet 2 10 5 10 2 4).SERVERS + (proxytreeDet 2 10 5 10 2 4).SWITCHES
       ∧ (proxytreeDet 2 10 5 10 2 4).LINKS
           = (∑ l ∈ Finset.range (2 - 1), 2 ^ l * 2 ^ (l + 1)) + 2 * 2 ^ (2 - 1)) :=
  ⟨⟨by decide, by decide, by decide, by decide, by decide, by decide⟩,
   counts_spec 2 10 5 10 2 4 _ _ _ (by decide) (by decide) (by decide) (by decide)
     (by decide) (by decide)⟩

/-! ### Lengths of the generated lists -/

theorem sum_map_range {M : Type} [AddCommMonoid M] (f : Nat → M) (n : Nat) :
    ((List.range n).map f).sum = ∑ i ∈ Finset.range n, f i := by
  induction n with
  | zero => simp
  | succ n ih =>
    rw [List.range_succ, List.map_append, List.sum_append, ih, Finset.sum_range_succ]
    simp

theorem length_initLinkCapacity (depth : Nat) (c d : Int) (hd : 1 ≤ depth) :
    (initLinkCapacity depth c d).length = initLinks depth := by
  rw [initLinkCapacity_eq, List.length_append, List.length_flatMap, initLinks_eq]
  have h0 : List.map (List.length ∘ fun (lvl : Nat) =>
        List.replicate (2 ^ (2 * lvl + 1)) (c - d * (lvl : Int))) (List.range (depth - 1))
      = List.map (fun (i : Nat) => 2 ^ (2 * i + 1)) (List.range (depth - 1)) := by
    simp [Function.comp]
  rw [h0, sum_map_range, List.length_replicate]
  have h2 : ∀ i, 2 ^ (2 * i + 1) = 2 ^ i * 2 ^ (i + 1) := by
    intro i
    rw [← pow_add]
    congr 1
    omega
  have h3 : 2 ^ depth = 2 * 2 ^ (depth - 1) := by
    conv_lhs => rw [show depth = (depth - 1) + 1 by omega]
    rw [pow_succ]
    omega
  rw [Finset.sum_congr rfl (fun i _ => h2 i), h3]

theorem length_initIdleDyn₁ (depth : Nat) (iPC iDEC dPC dDEC : Int) :
    (initIdleDynPowcons depth iPC iDEC dPC dDEC).1.length = NODESn depth := by
  rw [initIdleDynPowcons_eq]
  show ((List.range (depth + 1)).flatMap _).length = _
  rw [List.length_flatMap]
  have h0 : List.map (List.length ∘ fun (lvl : Nat) =>
        List.replicate (2 ^ lvl) (iPC - iDEC * (lvl : Int))) (List.range (depth + 1))
      = List.map (fun (i : Nat) => 2 ^ i) (List.range (depth + 1)) := by
    simp [Function.comp]
  rw [h0, sum_map_range, sum_two_pow]
  unfold NODESn SERVERSn
  rw [SWITCHESn_eq, pow_succ]
  have : 1 ≤ 2 ^ depth := Nat.one_le_two_pow
  omega

theorem length_initIdleDyn₂ (depth : Nat) (iPC iDEC dPC dDEC : Int) :
    (initIdleDynPowcons depth iPC iDEC dPC dDEC).2.length = NODESn depth := by
  rw [initIdleDynPowcons_eq]
  show ((List.range (depth + 1)).flatMap _).length = _
  rw [List.length_flatMap]
  have h0 : List.map (List.length ∘ fun (lvl : Nat) =>
        List.replicate (2 ^ lvl) (dPC - dDEC * (lvl : Int))) (List.range (depth + 1))
      = List.map (fun (i : Nat) => 2 ^ i) (List.range (depth + 1)) := by
    simp [Function.comp]
  rw [h0, sum_map_range, sum_two_pow]
  unfold NODESn SERVERSn
  rw [SWITCHESn_eq, pow_succ]
  have : 1 ≤ 2 ^ depth := Nat.one_le_two_pow
  omega

/-!
### C8 — `src_dst` partitions the VM ids

Claim: with or without randomization `src_dst` partitions `[0, VMS)` into
`FLOWS` disjoint pairs (every VM id in exactly one pair); without
randomization `src_dst[i] = (2i, 2i+1)`.
-/

/-- Reading consecutive index pairs out of a list of even length recovers
the list. -/
theorem flatMap_consecutive_pairs (n : Nat) :
    ∀ l : List Nat, l.length = 2 * n →
      (List.range n).flatMap (fun i => [l.getD (i * 2) 0, l.getD (i * 2 + 1) 0]) = l := by
  induction n with
  | zero =>
    intro l hl
    have hnil : l = [] := List.length_eq_zero.mp (by omega)
    subst hnil
    simp
  | succ n ih =>
    intro l hl
    match l with
    | a :: b :: t =>
      rw [List.range_succ_eq_map, List.flatMap_cons]
      have hmap : (List.map Nat.succ (List.range n)).flatMap
            (fun i => [(a :: b :: t).getD (i * 2) 0, (a :: b :: t).getD (i * 2 + 1) 0])
          = (List.range n).flatMap (fun i => [t.getD (i * 2) 0, t.getD (i * 2 + 1) 0]) := by
        induction (List.range n) with
        | nil => simp
        | cons x xs ihx =>
          rw [List.map_cons, List.flatMap_cons, List.flatMap_cons, ihx]
          have e1 : (a :: b :: t).getD (Nat.succ x * 2) 0 = t.getD (x * 2) 0 := by
            have hx : Nat.succ x * 2 = x * 2 + 2 := by omega
            rw [hx]
            rfl
          have e2 : (a :: b :: t).getD (Nat.succ x * 2 + 1) 0 = t.getD (x * 2 + 1) 0 := by
            have hx : Nat.succ x * 2 + 1 = (x * 2 + 1) + 2 := by omega
            rw [hx]
            rfl
          rw [e1, e2]
      have hlt : t.length = 2 * n := by
        simp only [List.length_cons] at hl
        omega
      rw [hmap, ih t hlt]
      rfl

/-- C8: for every `depth ≥ 1` and every post-shuffle `index_list` that is a
permutation of `range(VMS)` (which is what `random.shuffle` produces, and
the identity when randomization is off), the flattened `src_dst` is exactly
a permutation of the VM ids: `FLOWS` pairs, each VM id in exactly one slot.
Without randomization `src_dst[i] = (2i, 2i+1)`. -/
theorem src_dst_partition (depth : Nat)
    (server_c link_c idle_pc dyn_pc datar_avg : Int) (cpu dr : List Int)
    (il : List Nat) (hd : 1 ≤ depth)
    (hperm : il.Perm (List.range (VMSn depth))) :
    (proxytree depth server_c link_c idle_pc dyn_pc datar_avg cpu dr il).src_dst.length
        = (proxytree depth server_c link_c idle_pc dyn_pc datar_avg cpu dr il).FLOWS
    ∧ ((proxytree depth server_c link_c idle_pc dyn_pc datar_avg cpu dr il).src_dst.flatMap
          (fun p => [p.1, p.2])).Perm
        (List.range (proxytree depth server_c link_c idle_pc dyn_pc datar_avg cpu dr il).VMS)
    ∧ (∀ v < (proxytree depth server_c link_c idle_pc dyn_pc datar_avg cpu dr il).VMS,
        ((proxytree depth server_c link_c idle_pc dyn_pc datar_avg cpu dr il).src_dst.flatMap
            (fun p => [p.1, p.2])).count v = 1)
    ∧ (proxytreeDet depth server_c link_c idle_pc dyn_pc datar_avg).src_dst
        = (List.range (FLOWSn depth)).map (fun i => (2 * i, 2 * i + 1)) := by
  have hvms2 : VMSn depth = 2 * FLOWSn depth := by
    have hpar : VMSn depth % 2 = 0 := by
      unfold VMSn SERVERSn
      obtain ⟨k, rfl⟩ := Nat.exists_eq_add_of_le hd
      rw [pow_add, pow_one]
      omega
    unfold FLOWSn
    rw [if_pos hpar]
    omega
  have hlen : il.length = 2 * FLOWSn depth := by
    rw [hperm.length_eq, List.length_range, hvms2]
  have hflat : ((proxytree depth server_c link_c idle_pc dyn_pc datar_avg cpu dr
        il).src_dst.flatMap (fun p => [p.1, p.2])) = il := by
    show ((initSrcDst (FLOWSn depth) il).flatMap (fun p => [p.1, p.2])) = il
    unfold initSrcDst
    rw [List.flatMap_map]
    exact flatMap_consecutive_pairs (FLOWSn depth) il hlen
  refine ⟨by simp [proxytree, initSrcDst], ?_, ?_, ?_⟩
  · rw [hflat]
    exact hperm
  · intro v hv
    rw [hflat, hperm.count_eq]
    exact List.count_eq_one_of_mem (List.nodup_range _) (List.mem_range.mpr hv)
  · show initSrcDst (FLOWSn depth) (List.range (VMSn depth)) = _
    unfold initSrcDst
    apply List.map_congr_left
    intro i hi
    rw [List.mem_range] at hi
    have h1 : i * 2 < VMSn depth := by omega
    have h2 : i * 2 + 1 < VMSn depth := by omega
    rw [getD_range h1, getD_range h2, Nat.mul_comm i 2]

/-- C8 witness at `depth = 2` with the shuffled index list `[3,0,2,1]`. -/
theorem src_dst_partition_witness :
    (1 ≤ 2 ∧ ([3,0,2,1] : List Nat).Perm (List.range (VMSn 2)))
    ∧ ((proxytree 2 10 5 10 2 4 [6,6,6,6] [4,4] [3,0,2,1]).src_dst.length
          = (proxytree 2 10 5 10 2 4 [6,6,6,6] [4,4] [3,0,2,1]).FLOWS
       ∧ ((proxytree 2 10 5 10 2 4 [6,6,6,6] [4,4] [3,0,2,1]).src_dst.flatMap
            (fun p => [p.1, p.2])).Perm
          (List.range (proxytree 2 10 5 10 2 4 [6,6,6,6] [4,4] [3,0,2,1]).VMS)
       ∧ (∀ v < (proxytree 2 10 5 10 2 4 [6,6,6,6] [4,4] [3,0,2,1]).VMS,
            ((proxytree 2 10 5 10 2 4 [6,6,6,6] [4,4] [3,0,2,1]).src_dst.flatMap
                (fun p => [p.1, p.2])).count v = 1)
       ∧ (proxytreeDet 2 10 5 10 2 4).src_dst
          = (List.range (FLOWSn 2)).map (fun i => (2 * i, 2 * i + 1))) :=
  ⟨⟨by decide, by decide⟩,
   src_dst_partition 2 10 5 10 2 4 [6,6,6,6] [4,4] [3,0,2,1] (by decide) (by decide)⟩

/-!
### C3 — parameter validation

Claim: construction fails fast with `InvalidParameter` when `depth < 1` or
any capacity/power input is negative, and no partial Topology is returned.
This is FALSE: `Proxytree.__init__` performs no validation whatsoever (the
source contains no `raise`, no assertion, and no `InvalidParameter` class);
negative capacity/power inputs flow straight into the produced lists and a
complete `Proxytree` object is returned.  (With `depth = 0` the expression
`2**(self.DEPTH-1)` is a Python float and `range` raises `TypeError` —
still not `InvalidParameter`.)
-/

/-- C3 counterexample: all-negative capacity/power inputs at `depth = 1`
produce a complete topology (all derived lists fully built, the negative
capacities copied in) instead of failing with `InvalidParameter`. -/
theorem no_validation_counterexample :
    (proxytreeDet 1 (-5) (-3) (-2) (-1) (-4)).server_capacity = [-5, -5]
    ∧ (proxytreeDet 1 (-5) (-3) (-2) (-1) (-4)).link_capacity = [-3, -3]
    ∧ (proxytreeDet 1 (-5) (-3) (-2) (-1) (-4)).idle_powcons = [-2, -7, -7]
    ∧ (proxytreeDet 1 (-5) (-3) (-2) (-1) (-4)).dyn_powcons = [-1, -2, -2]
    ∧ (proxytreeDet 1 (-5) (-3) (-2) (-1) (-4)).src_dst = [(0, 1)]
    ∧ (proxytreeDet 1 (-5) (-3) (-2) (-1) (-4)).LINKS = 2
    ∧ (proxytreeDet 1 (-5) (-3) (-2) (-1) (-4)).link_dict
        = [((0, 1), 0), ((1, 0), 0), ((0, 2), 1), ((2, 0), 1)] := by
  decide

/-- C3 amended: the constructor validates nothing — for every `depth ≥ 1`
and arbitrary (in particular negative) integer inputs it returns a complete
`Proxytree`: every derived list is fully built with its expected size, the
(possibly negative) base values copied in. -/
theorem no_validation (depth : Nat) (server_c link_c idle_pc dyn_pc datar_avg : Int)
    (hd : 1 ≤ depth) :
    (proxytreeDet depth server_c link_c idle_pc dyn_pc datar_avg).server_capacity
        = List.replicate (2 ^ depth) server_c
    ∧ (proxytreeDet depth server_c link_c idle_pc dyn_pc datar_avg).link_capacity.length
        = (proxytreeDet depth server_c link_c idle_pc dyn_pc datar_avg).LINKS
    ∧ (proxytreeDet depth server_c link_c idle_pc dyn_pc datar_avg).idle_powcons.length
        = (proxytreeDet depth server_c link_c idle_pc dyn_pc datar_avg).NODES
    ∧ (proxytreeDet depth server_c link_c idle_pc dyn_pc datar_avg).dyn_powcons.length
        = (proxytreeDet depth server_c link_c idle_pc dyn_pc datar_avg).NODES
    ∧ (proxytreeDet depth server_c link_c idle_pc dyn_pc datar_avg).src_dst.length
        = (proxytreeDet depth server_c link_c idle_pc dyn_pc datar_avg).FLOWS
    ∧ (proxytreeDet depth server_c link_c idle_pc dyn_pc datar_avg).cpu_util
        = List.replicate (2 ^ depth) (Int.fdiv server_c 2 + 1) :=
  ⟨rfl, length_initLinkCapacity depth _ 2 hd, length_initIdleDyn₁ depth _ 5 _ 1,
   length_initIdleDyn₂ depth _ 5 _ 1, by simp [proxytreeDet, proxytree, initSrcDst], rfl⟩

/-- C3 amended witness at `depth = 1` with negative inputs. -/
theorem no_validation_witness :
    1 ≤ 1
    ∧ ((proxytreeDet 1 (-5) (-3) (-2) (-1) (-4)).server_capacity
          = List.replicate (2 ^ 1) (-5)
       ∧ (proxytreeDet 1 (-5) (-3) (-2) (-1) (-4)).link_capacity.length
          = (proxytreeDet 1 (-5) (-3) (-2) (-1) (-4)).LINKS
       ∧ (proxytreeDet 1 (-5) (-3) (-2) (-1) (-4)).idle_powcons.length
          = (proxytreeDet 1 (-5) (-3) (-2) (-1) (-4)).NODES
       ∧ (proxytreeDet 1 (-5) (-3) (-2) (-1) (-4)).dyn_powcons.length
          = (proxytreeDet 1 (-5) (-3) (-2) (-1) (-4)).NODES
       ∧ (proxytreeDet 1 (-5) (-3) (-2) (-1) (-4)).src_dst.length
          = (proxytreeDet 1 (-5) (-3) (-2) (-1) (-4)).FLOWS
       ∧ (proxytreeDet 1 (-5) (-3) (-2) (-1) (-4)).cpu_util
          = List.replicate (2 ^ 1) (Int.fdiv (-5) 2 + 1)) :=
  ⟨by decide, no_validation 1 (-5) (-3) (-2) (-1) (-4) (by decide)⟩

/-!
### C9 — capacity / power entries and non-negativity

Claim: for positive base inputs and depth ≥ 1 every entry of
`server_capacity`, `link_capacity`, `idle_powcons`, `dyn_powcons` is
non-negative.  This is FALSE: the per-level decrements (2 for links, 5 for
idle power, 1 for dynamic power) are subtracted from the base value scaled
by `depth`, and small positive bases go negative, e.g. `idle_pc = 1`,
`depth = 1` gives `idle_powcons = [1, -4, -4]`, and `link_c = 1`,
`depth = 3` gives server-link capacities of `-1`.  The amended claim
strengthens the hypotheses to `0 ≤ server_c`, `2 ≤ link_c`, `5 ≤ idle_pc`,
`1 ≤ dyn_pc`, which do guarantee non-negativity.
-/

/-- C9 counterexample: with the positive bases `idle_pc = 1` (instance A) and
`link_c = 1` at `depth = 3` (instance B), the built topology contains
negative idle-power and link-capacity entries. -/
theorem powcons_capacity_counterexample :
    ((0:Int) < 10 ∧ (0:Int) < 5 ∧ (0:Int) < 1 ∧ (0:Int) < 2 ∧ (0:Int) < 4
      ∧ (-4 : Int) ∈ (proxytreeDet 1 10 5 1 2 4).idle_powcons)
    ∧ ((0:Int) < 10 ∧ (0:Int) < 1 ∧ (0:Int) < 10 ∧ (0:Int) < 2 ∧ (0:Int) < 4
      ∧ (-1 : Int) ∈ (proxytreeDet 3 10 1 10 2 4).link_capacity) := by
  decide

/-- C9 amended: entries of `server_capacity` are non-negative whenever
`0 ≤ server_c`; entries of `link_capacity` whenever `2 ≤ link_c`; entries of
`idle_powcons` whenever `5 ≤ idle_pc`; entries of `dyn_powcons` whenever
`1 ≤ dyn_pc` (the bound must dominate the fixed per-level decrement; bare
positivity is not enough). -/
theorem powcons_capacity_nonneg (depth : Nat)
    (server_c link_c idle_pc dyn_pc datar_avg : Int)
    (cpu dr : List Int) (il : List Nat) (hd : 1 ≤ depth)
    (hs : 0 ≤ server_c) (hl : 2 ≤ link_c) (hi : 5 ≤ idle_pc) (hy : 1 ≤ dyn_pc) :
    (∀ x ∈ (proxytree depth server_c link_c idle_pc dyn_pc datar_avg cpu dr il).server_capacity,
        0 ≤ x)
    ∧ (∀ x ∈ (proxytree depth server_c link_c idle_pc dyn_pc datar_avg cpu dr il).link_capacity,
        0 ≤ x)
    ∧ (∀ x ∈ (proxytree depth server_c link_c idle_pc dyn_pc datar_avg cpu dr il).idle_powcons,
        0 ≤ x)
    ∧ (∀ x ∈ (proxytree depth server_c link_c idle_pc dyn_pc datar_avg cpu dr il).dyn_powcons,
        0 ≤ x) := by
  have hdep : (1:Int) ≤ (depth : Int) := by exact_mod_cast hd
  refine ⟨?_, ?_, ?_, ?_⟩
  · intro x hx
    rw [List.eq_of_mem_replicate hx]
    exact hs
  · intro x hx
    show (0:Int) ≤ x
    have hx' : x ∈ initLinkCapacity depth (link_c * depth) 2 := hx
    rw [initLinkCapacity_eq] at hx'
    have hbase : 2 * (depth:Int) ≤ link_c * depth := by
      exact mul_le_mul_of_nonneg_right hl (by linarith)
    rcases List.mem_append.mp hx' with h | h
    · obtain ⟨lvl, hlvl, hxr⟩ := List.mem_flatMap.mp h
      rw [List.eq_of_mem_replicate hxr]
      have : (lvl:Int) < (depth:Int) := by
        exact_mod_cast Nat.lt_of_lt_of_le (List.mem_range.mp hlvl) (Nat.sub_le depth 1)
      linarith
    · rw [List.eq_of_mem_replicate h]
      have : ((depth - 1 : Nat) : Int) ≤ (depth:Int) - 1 := by
        omega
      linarith
  · intro x hx
    show (0:Int) ≤ x
    have hx' : x ∈ (initIdleDynPowcons depth (idle_pc * depth) 5 (dyn_pc * depth) 1).1 := hx
    rw [initIdleDynPowcons_eq] at hx'
    obtain ⟨lvl, hlvl, hxr⟩ := List.mem_flatMap.mp hx'
    rw [List.eq_of_mem_replicate hxr]
    have h1 : (lvl:Int) ≤ (depth:Int) := by
      exact_mod_cast Nat.lt_succ_iff.mp (List.mem_range.mp hlvl)
    have hbase : 5 * (depth:Int) ≤ idle_pc * depth := by
      exact mul_le_mul_of_nonneg_right hi (by linarith)
    linarith
  · intro x hx
    show (0:Int) ≤ x
    have hx' : x ∈ (initIdleDynPowcons depth (idle_pc * depth) 5 (dyn_pc * depth) 1).2 := hx
    rw [initIdleDynPowcons_eq] at hx'
    obtain ⟨lvl, hlvl, hxr⟩ := List.mem_flatMap.mp hx'
    rw [List.eq_of_mem_replicate hxr]
    have h1 : (lvl:Int) ≤ (depth:Int) := by
      exact_mod_cast Nat.lt_succ_iff.mp (List.mem_range.mp hlvl)
    have hbase : 1 * (depth:Int) ≤ dyn_pc * depth := by
      exact mul_le_mul_of_nonneg_right hy (by linarith)
    linarith

/-! ### The generated link pairs: bounds, distinctness, length -/

theorem swBranch_bounds {lvl : Nat} {p : Nat × Nat} (hp : p ∈ swBranch lvl) :
    2 ^ lvl - 1 ≤ p.1 ∧ p.1 < 2 ^ (lvl + 1) - 1
      ∧ 2 ^ (lvl + 1) - 1 ≤ p.2 ∧ p.2 < 2 ^ (lvl + 2) - 1 := by
  unfold swBranch at hp
  by_cases h0 : lvl = 0
  · subst h0
    rw [if_pos rfl] at hp
    have hp' : p ∈ [((0 : Nat), (1 : Nat)), (0, 2)] := hp
    rcases List.mem_cons.mp hp' with rfl | hp''
    · decide
    rcases List.mem_cons.mp hp'' with rfl | hp''
    · decide
    · simp at hp''
  · rw [if_neg h0] at hp
    simp only [List.mem_flatMap, List.mem_map, List.mem_range'_1] at hp
    obtain ⟨father, hf, son, hs, rfl⟩ := hp
    have h1 : 1 ≤ 2 ^ lvl := Nat.one_le_two_pow
    have h2 : 2 ^ (lvl + 1) = 2 * 2 ^ lvl := by rw [pow_succ]; omega
    have h3 : 2 ^ (lvl + 2) = 2 * 2 ^ (lvl + 1) := by rw [pow_succ]; omega
    have e1 : ((father, son) : Nat × Nat).1 = father := rfl
    have e2 : ((father, son) : Nat × Nat).2 = son := rfl
    rw [e1, e2]
    omega

theorem swLinkPairs_bounds {depth : Nat} {p : Nat × Nat} (hp : p ∈ swLinkPairs depth) :
    ∃ lvl, lvl < depth - 1
      ∧ 2 ^ lvl - 1 ≤ p.1 ∧ p.1 < 2 ^ (lvl + 1) - 1
      ∧ 2 ^ (lvl + 1) - 1 ≤ p.2 ∧ p.2 < 2 ^ (lvl + 2) - 1 := by
  unfold swLinkPairs at hp
  rw [List.mem_flatMap] at hp
  obtain ⟨lvl, hl, hp⟩ := hp
  exact ⟨lvl, List.mem_range.mp hl, swBranch_bounds hp⟩

theorem serverLinkPairs_bounds {depth : Nat} {p : Nat × Nat} (hd : 1 ≤ depth)
    (hp : p ∈ serverLinkPairs depth) :
    2 ^ (depth - 1) - 1 ≤ p.1 ∧ p.1 < 2 ^ depth - 1
      ∧ (p.2 = p.1 * 2 + 1 ∨ p.2 = p.1 * 2 + 2) := by
  unfold serverLinkPairs at hp
  simp only [List.mem_flatMap, List.mem_map, List.mem_range'_1, List.mem_range] at hp
  obtain ⟨father, hf, i, hi, rfl⟩ := hp
  have h1 : 1 ≤ 2 ^ (depth - 1) := Nat.one_le_two_pow
  have h2 : 2 ^ depth = 2 * 2 ^ (depth - 1) := by
    conv_lhs => rw [show depth = (depth - 1) + 1 by omega]
    rw [pow_succ]
    omega
  have e1 : ((father, father * 2 + 1 + i) : Nat × Nat).1 = father := rfl
  have e2 : ((father, father * 2 + 1 + i) : Nat × Nat).2 = father * 2 + 1 + i := rfl
  rw [e1, e2]
  omega

/-- Every generated pair is ordered (`father < son`), its first node is a
switch, and its second node is a valid node id. -/
theorem linkPairs_props {depth : Nat} {p : Nat × Nat} (hd : 1 ≤ depth)
    (hp : p ∈ linkPairs depth) :
    p.1 < p.2 ∧ p.1 < SWITCHESn depth ∧ p.2 < NODESn depth := by
  have hsw : SWITCHESn depth = 2 ^ depth - 1 := SWITCHESn_eq depth
  have hno : NODESn depth = 2 ^ depth + (2 ^ depth - 1) := by
    unfold NODESn SERVERSn
    rw [SWITCHESn_eq]
  have h2d : 1 ≤ 2 ^ depth := Nat.one_le_two_pow
  unfold linkPairs at hp
  rcases List.mem_append.mp hp with h | h
  · obtain ⟨lvl, hlvl, b1, b2, b3, b4⟩ := swLinkPairs_bounds h
    have hm1 : 2 ^ (lvl + 1) ≤ 2 ^ depth := Nat.pow_le_pow_right (by omega) (by omega)
    have hm2 : 2 ^ (lvl + 2) ≤ 2 ^ depth := Nat.pow_le_pow_right (by omega) (by omega)
    omega
  · obtain ⟨b1, b2, b3⟩ := serverLinkPairs_bounds hd h
    have h2 : 2 ^ depth = 2 * 2 ^ (depth - 1) := by
      conv_lhs => rw [show depth = (depth - 1) + 1 by omega]
      rw [pow_succ]
      omega
    have h1 : 1 ≤ 2 ^ (depth - 1) := Nat.one_le_two_pow
    omega

theorem pairwise_lexLt_swBranch (lvl : Nat) : (swBranch lvl).Pairwise lexLt := by
  unfold swBranch
  by_cases h0 : lvl = 0
  · subst h0
    rw [if_pos rfl]
    show List.Pairwise lexLt [((0 : Nat), (1 : Nat)), (0, 2)]
    refine List.Pairwise.cons ?_ (List.Pairwise.cons ?_ List.Pairwise.nil)
    · intro y hy
      rcases List.mem_cons.mp hy with rfl | hy
      · exact Or.inr ⟨rfl, by omega⟩
      · exact absurd hy (List.not_mem_nil y)
    · intro y hy
      exact absurd hy (List.not_mem_nil y)
  · rw [if_neg h0]
    apply pairwise_flatMap
    · intro father _
      rw [List.pairwise_map]
      exact (pairwise_lt_range' _ _).imp (fun hab => Or.inr ⟨rfl, hab⟩)
    · apply (pairwise_lt_range' _ _).imp
      intro f f' hff' x hx y hy
      simp only [List.mem_map] at hx hy
      obtain ⟨sx, _, rfl⟩ := hx
      obtain ⟨sy, _, rfl⟩ := hy
      exact Or.inl hff'

theorem pairwise_lexLt_swLinkPairs (depth : Nat) :
    (swLinkPairs depth).Pairwise lexLt := by
  unfold swLinkPairs
  apply pairwise_flatMap
  · exact fun lvl _ => pairwise_lexLt_swBranch lvl
  · apply (List.pairwise_lt_range _).imp
    intro lvl lvl' hll' x hx y hy
    obtain ⟨_, hx2, _, _⟩ := swBranch_bounds hx
    obtain ⟨hy1, _, _, _⟩ := swBranch_bounds hy
    have hm : 2 ^ (lvl + 1) ≤ 2 ^ lvl' := Nat.pow_le_pow_right (by omega) (by omega)
    have h1 : 1 ≤ 2 ^ lvl' := Nat.one_le_two_pow
    exact Or.inl (by omega)

theorem pairwise_lexLt_serverLinkPairs (depth : Nat) :
    (serverLinkPairs depth).Pairwise lexLt := by
  unfold serverLinkPairs
  apply pairwise_flatMap
  · intro father _
    rw [List.pairwise_map]
    apply (List.pairwise_lt_range _).imp
    intro i j hij
    exact Or.inr ⟨rfl, by omega⟩
  · apply (pairwise_lt_range' _ _).imp
    intro f f' hff' x hx y hy
    simp only [List.mem_map, List.mem_range] at hx hy
    obtain ⟨i, _, rfl⟩ := hx
    obtain ⟨j, _, rfl⟩ := hy
    exact Or.inl hff'

theorem pairwise_lexLt_linkPairs (depth : Nat) (hd : 1 ≤ depth) :
    (linkPairs depth).Pairwise lexLt := by
  unfold linkPairs
  rw [List.pairwise_append]
  refine ⟨pairwise_lexLt_swLinkPairs depth, pairwise_lexLt_serverLinkPairs depth, ?_⟩
  intro x hx y hy
  obtain ⟨lvl, hlvl, _, hx2, _, _⟩ := swLinkPairs_bounds hx
  obtain ⟨hy1, _, _⟩ := serverLinkPairs_bounds hd hy
  have hm : 2 ^ (lvl + 1) ≤ 2 ^ (depth - 1) := Nat.pow_le_pow_right (by omega) (by omega)
  have h1 : 1 ≤ 2 ^ (depth - 1) := Nat.one_le_two_pow
  exact Or.inl (by omega)

theorem linkPairs_nodup (depth : Nat) (hd : 1 ≤ depth) : (linkPairs depth).Nodup := by
  show (linkPairs depth).Pairwise _
  apply (pairwise_lexLt_linkPairs depth hd).imp
  intro a b h
  intro hab
  subst hab
  unfold lexLt at h
  omega

theorem sum_map_const_nat {α : Type} (l : List α) (c : Nat) (f : α → Nat)
    (h : ∀ a ∈ l, f a = c) : (l.map f).sum = l.length * c := by
  induction l with
  | nil => simp
  | cons a t ih =>
    rw [List.map_cons, List.sum_cons, ih (fun x hx => h x (List.mem_cons_of_mem a hx)),
      h a (List.mem_cons_self a t), List.length_cons]
    ring

theorem length_swBranch (lvl : Nat) : (swBranch lvl).length = 2 ^ lvl * 2 ^ (lvl + 1) := by
  unfold swBranch
  by_cases h0 : lvl = 0
  · subst h0
    rw [if_pos rfl]
    rfl
  · rw [if_neg h0]
    rw [List.length_flatMap]
    have h1 : 1 ≤ 2 ^ lvl := Nat.one_le_two_pow
    have h2 : 2 ^ (lvl + 1) = 2 * 2 ^ lvl := by rw [pow_succ]; omega
    rw [sum_map_const_nat _ (2 ^ (lvl + 1)) _ ?hconst]
    case hconst =>
      intro a _
      simp only [Function.comp, List.length_map, List.length_range']
      omega
    rw [List.length_range']
    have e1 : (2 ^ lvl - 1) * 2 + 1 - (2 ^ lvl - 1) = 2 ^ lvl := by omega
    rw [e1]

theorem length_swLinkPairs (depth : Nat) :
    (swLinkPairs depth).length = ∑ lvl ∈ Finset.range (depth - 1), 2 ^ lvl * 2 ^ (lvl + 1) := by
  unfold swLinkPairs
  rw [List.length_flatMap]
  have h0 : List.map (List.length ∘ swBranch) (List.range (depth - 1))
      = List.map (fun lvl => 2 ^ lvl * 2 ^ (lvl + 1)) (List.range (depth - 1)) := by
    apply List.map_congr_left
    intro lvl _
    exact length_swBranch lvl
  rw [h0, sum_map_range]

theorem length_serverLinkPairs (depth : Nat) :
    (serverLinkPairs depth).length = 2 * 2 ^ (depth - 1) := by
  unfold serverLinkPairs
  rw [List.length_flatMap]
  rw [sum_map_const_nat _ 2 _ ?hconst]
  case hconst =>
    intro a _
    simp [Function.comp]
  rw [List.length_range']
  have h1 : 1 ≤ 2 ^ (depth - 1) := Nat.one_le_two_pow
  omega

theorem length_linkPairs (depth : Nat) :
    (linkPairs depth).length = initLinks depth := by
  unfold linkPairs
  rw [List.length_append, length_swLinkPairs, length_serverLinkPairs, initLinks_eq]

/-! ### The link dictionary -/

theorem find_val_cons_pos {l : Nat} {rest : List ((Nat × Nat) × Nat)}
    (key : Nat × Nat) (v : Nat) (h : v = l) :
    List.find? (fun e => e.2 == l) ((key, v) :: rest) = some (key, v) := by
  subst h
  simp [List.find?_cons]

theorem find_val_cons_neg {l : Nat} {rest : List ((Nat × Nat) × Nat)}
    (key : Nat × Nat) (v : Nat) (h : ¬ v = l) :
    List.find? (fun e => e.2 == l) ((key, v) :: rest)
      = List.find? (fun e => e.2 == l) rest := by
  simp [List.find?_cons, h]

theorem find_key_cons_pos {key : Nat × Nat} {rest : List ((Nat × Nat) × Nat)}
    (k0 : Nat × Nat) (v : Nat) (h : k0 = key) :
    List.find? (fun e => e.1 == key) ((k0, v) :: rest) = some (k0, v) := by
  subst h
  simp [List.find?_cons]

theorem find_key_cons_neg {key : Nat × Nat} {rest : List ((Nat × Nat) × Nat)}
    (k0 : Nat × Nat) (v : Nat) (h : ¬ k0 = key) :
    List.find? (fun e => e.1 == key) ((k0, v) :: rest)
      = List.find? (fun e => e.1 == key) rest := by
  simp [List.find?_cons, h]

theorem find_value_dictFrom (ps : List (Nat × Nat)) : ∀ k l : Nat,
    (dictFrom k ps).find? (fun e => e.2 == l)
      = if k ≤ l then (ps[l - k]?).map (fun p => (p, l)) else none := by
  induction ps with
  | nil =>
    intro k l
    unfold dictFrom
    simp
  | cons p t ih =>
    intro k l
    unfold dictFrom
    by_cases hkl : k = l
    · subst hkl
      rw [find_val_cons_pos p k rfl, if_pos (Nat.le_refl k), Nat.sub_self,
        List.getElem?_cons_zero]
      rfl
    · rw [find_val_cons_neg p k hkl, find_val_cons_neg (p.2, p.1) k hkl, ih (k + 1) l]
      by_cases hlt : k < l
      · rw [if_pos (by omega), if_pos (by omega)]
        have hsub : l - k = (l - (k + 1)) + 1 := by omega
        rw [hsub, List.getElem?_cons_succ]
      · rw [if_neg (by omega), if_neg (by omega)]

/-- `get_nodes l` on the built dictionary returns the `l`-th generated pair:
the first key in insertion order whose value is `l` is the `(father, son)`
ordering of that pair. -/
theorem get_nodes_dictFrom (ps : List (Nat × Nat)) (l : Nat) :
    get_nodes l (dictFrom 0 ps) = ps[l]? := by
  unfold get_nodes
  rw [find_value_dictFrom ps 0 l, if_pos (Nat.zero_le l), Nat.sub_zero,
    Option.map_map]
  cases hpl : ps[l]? <;> rfl

theorem mem_dictFrom {ps : List (Nat × Nat)} : ∀ {k : Nat} {e : (Nat × Nat) × Nat},
    e ∈ dictFrom k ps →
    ∃ i p, ps[i]? = some p ∧ e.2 = k + i ∧ (e.1 = p ∨ e.1 = (p.2, p.1)) := by
  induction ps with
  | nil =>
    intro k e he
    simp [dictFrom] at he
  | cons p t ih =>
    intro k e he
    unfold dictFrom at he
    rcases List.mem_cons.mp he with rfl | he
    · exact ⟨0, p, by simp, by simp, Or.inl rfl⟩
    rcases List.mem_cons.mp he with rfl | he
    · exact ⟨0, p, by simp, by simp, Or.inr rfl⟩
    · obtain ⟨i, q, hget, h2, hor⟩ := ih he
      refine ⟨i + 1, q, ?_, by omega, hor⟩
      rw [List.getElem?_cons_succ]
      exact hget

theorem find_key_dictFrom : ∀ ps : List (Nat × Nat), (∀ p ∈ ps, p.1 < p.2) → ps.Nodup →
    ∀ (k i a b : Nat) (p : Nat × Nat), ps[i]? = some p →
    ((a, b) = p ∨ (a, b) = (p.2, p.1)) →
    dictGet (dictFrom k ps) (a, b) = some (k + i) := by
  intro ps
  induction ps with
  | nil =>
    intro _ _ k i a b p hget
    simp at hget
  | cons q t ih =>
    intro hord hnd k i a b p hget hab
    have hq12 : q.1 < q.2 := hord q (List.mem_cons_self q t)
    unfold dictGet dictFrom
    cases i with
    | zero =>
      have hqp : q = p := by
        rw [List.getElem?_cons_zero] at hget
        exact Option.some_inj.mp hget
      subst hqp
      rcases hab with hab | hab
      · rw [find_key_cons_pos q k hab.symm]
        rfl
      · have hne : ¬ q = (a, b) := by
          intro h
          have g1 : q.1 = a := congrArg Prod.fst h
          have g2 : q.2 = b := congrArg Prod.snd h
          have e1 : a = q.2 := congrArg Prod.fst hab
          have e2 : b = q.1 := congrArg Prod.snd hab
          omega
        rw [find_key_cons_neg q k hne, find_key_cons_pos (q.2, q.1) k hab.symm]
        rfl
    | succ i =>
      rw [List.getElem?_cons_succ] at hget
      have hpt : p ∈ t := List.getElem?_mem hget
      have hp12 : p.1 < p.2 := hord p (List.mem_cons_of_mem q hpt)
      have hqp : q ≠ p := by
        intro h
        subst h
        exact (List.nodup_cons.mp hnd).1 hpt
      have ha1 : ¬ q = (a, b) := by
        intro h
        rcases hab with hab | hab
        · exact hqp (h.trans hab)
        · have e1 : a = p.2 := congrArg Prod.fst hab
          have e2 : b = p.1 := congrArg Prod.snd hab
          have f1 : q.1 = a := congrArg Prod.fst h
          have f2 : q.2 = b := congrArg Prod.snd h
          omega
      have ha2 : ¬ (q.2, q.1) = (a, b) := by
        intro h
        have f1 : q.2 = a := congrArg Prod.fst h
        have f2 : q.1 = b := congrArg Prod.snd h
        rcases hab with hab | hab
        · have e1 : a = p.1 := congrArg Prod.fst hab
          have e2 : b = p.2 := congrArg Prod.snd hab
          omega
        · have e1 : a = p.2 := congrArg Prod.fst hab
          have e2 : b = p.1 := congrArg Prod.snd hab
          apply hqp
          have hq : q = (q.1, q.2) := rfl
          have hpp : p = (p.1, p.2) := rfl
          rw [hq, hpp, ← e1, ← e2, ← f1, ← f2]
      rw [find_key_cons_neg q k ha1, find_key_cons_neg (q.2, q.1) k ha2]
      have hrec := ih (fun x hx => hord x (List.mem_cons_of_mem q hx))
        (List.nodup_cons.mp hnd).2 (k + 1) i a b p hget hab
      unfold dictGet at hrec
      rw [hrec]
      congr 1
      omega

/-! ### The adjacency matrix -/

theorem matGet_setMat {m : List (List Nat)} {a b : Nat} (v : Nat)
    (ha : a < m.length) (hb : b < (m.getD a []).length) (x y : Nat) :
    matGet (setMat m a b v) x y = if x = a ∧ y = b then v else matGet m x y := by
  unfold matGet setMat
  by_cases hx : x = a
  · subst hx
    have hrow : ((m.set x ((m.getD x []).set b v)).getD x []) = (m.getD x []).set b v := by
      rw [List.getD_eq_getElem?_getD, List.getElem?_set_self ha]
      rfl
    rw [hrow]
    by_cases hy : y = b
    · subst hy
      rw [if_pos ⟨rfl, rfl⟩, List.getD_eq_getElem?_getD, List.getElem?_set_self hb]
      rfl
    · rw [if_neg (fun h => hy h.2), List.getD_eq_getElem?_getD,
        List.getD_eq_getElem?_getD (m.getD x []), List.getElem?_set_ne (by omega)]
  · have hrow : ((m.set a ((m.getD a []).set b v)).getD x []) = m.getD x [] := by
      rw [List.getD_eq_getElem?_getD, List.getElem?_set_ne (by omega),
        ← List.getD_eq_getElem?_getD]
    rw [hrow, if_neg (fun h => hx h.1)]

theorem setMat_getD_length {m : List (List Nat)} (a b v x : Nat) :
    ((setMat m a b v).getD x []).length = (m.getD x []).length := by
  unfold setMat
  by_cases hx : x = a
  · subst hx
    by_cases hlt : x < m.length
    · rw [List.getD_eq_getElem?_getD, List.getElem?_set_self hlt]
      show ((m.getD x []).set b v).length = _
      rw [List.length_set]
    · rw [List.getD_eq_getElem?_getD, List.getD_eq_getElem?_getD,
        List.getElem?_eq_none (by rw [List.length_set]; omega),
        List.getElem?_eq_none (by omega)]
  · rw [List.getD_eq_getElem?_getD, List.getElem?_set_ne (by omega),
      ← List.getD_eq_getElem?_getD]

theorem matGet_foldl (N : Nat) : ∀ (pairs : List (Nat × Nat)) (m : List (List Nat)),
    m.length = N →
    (∀ x, x < N → (m.getD x []).length = N) →
    (∀ p ∈ pairs, p.1 < N ∧ p.2 < N) → ∀ a b,
    matGet (pairs.foldl (fun acc p => setMat (setMat acc p.1 p.2 1) p.2 p.1 1) m) a b
      = if (a, b) ∈ pairs ∨ (b, a) ∈ pairs then 1 else matGet m a b := by
  intro pairs
  induction pairs with
  | nil =>
    intro m _ _ _ a b
    simp
  | cons p t ih =>
    intro m hm1 hm2 hb a b
    rw [List.foldl_cons]
    have hp := hb p (List.mem_cons_self p t)
    have hin1 : p.1 < m.length := by omega
    have hin2 : p.2 < (m.getD p.1 []).length := by rw [hm2 p.1 (by omega)]; omega
    have hlen1 : (setMat m p.1 p.2 1).length = m.length := List.length_set m p.1 _
    have hout1 : p.2 < (setMat m p.1 p.2 1).length := by omega
    have hout2 : p.1 < ((setMat m p.1 p.2 1).getD p.2 []).length := by
      rw [setMat_getD_length, hm2 p.2 (by omega)]
      omega
    have hm'1 : (setMat (setMat m p.1 p.2 1) p.2 p.1 1).length = N := by
      unfold setMat
      rw [List.length_set, List.length_set]
      exact hm1
    have hm'2 : ∀ x, x < N →
        ((setMat (setMat m p.1 p.2 1) p.2 p.1 1).getD x []).length = N := by
      intro x hx
      rw [setMat_getD_length, setMat_getD_length]
      exact hm2 x hx
    rw [ih _ hm'1 hm'2 (fun q hq => hb q (List.mem_cons_of_mem p hq)) a b]
    have hstep : matGet (setMat (setMat m p.1 p.2 1) p.2 p.1 1) a b
        = if a = p.2 ∧ b = p.1 then 1
          else if a = p.1 ∧ b = p.2 then 1 else matGet m a b := by
      rw [matGet_setMat 1 hout1 hout2 a b]
      by_cases h2 : a = p.2 ∧ b = p.1
      · rw [if_pos h2, if_pos h2]
      · rw [if_neg h2, if_neg h2, matGet_setMat 1 hin1 hin2 a b]
    by_cases c1 : (a, b) ∈ t ∨ (b, a) ∈ t
    · rw [if_pos c1, if_pos ?side]
      case side =>
        rcases c1 with h | h
        · exact Or.inl (List.mem_cons_of_mem p h)
        · exact Or.inr (List.mem_cons_of_mem p h)
    · rw [if_neg c1, hstep]
      by_cases d1 : a = p.1 ∧ b = p.2
      · have hmem : (a, b) ∈ p :: t ∨ (b, a) ∈ p :: t := by
          left
          rw [List.mem_cons]
          exact Or.inl (Prod.ext_iff.mpr ⟨d1.1, d1.2⟩)
        rw [if_pos hmem]
        by_cases d2 : a = p.2 ∧ b = p.1
        · rw [if_pos d2]
        · rw [if_neg d2, if_pos d1]
      · by_cases d2 : a = p.2 ∧ b = p.1
        · rw [if_pos d2, if_pos ?side2]
          case side2 =>
            right
            rw [List.mem_cons]
            exact Or.inl (Prod.ext_iff.mpr ⟨d2.2, d2.1⟩)
        · rw [if_neg d2, if_neg d1, if_neg ?side3]
          case side3 =>
            intro hmem
            rcases hmem with h | h
            · rcases List.mem_cons.mp h with h | h
              · have e1 : a = p.1 := congrArg Prod.fst h
                have e2 : b = p.2 := congrArg Prod.snd h
                exact d1 ⟨e1, e2⟩
              · exact c1 (Or.inl h)
            · rcases List.mem_cons.mp h with h | h
              · have e1 : b = p.1 := congrArg Prod.fst h
                have e2 : a = p.2 := congrArg Prod.snd h
                exact d2 ⟨e2, e1⟩
              · exact c1 (Or.inr h)

theorem matGet_zero (N a b : Nat) :
    matGet (List.replicate N (List.replicate N 0)) a b = 0 := by
  unfold matGet
  rcases Nat.lt_or_ge a N with h | h
  · have hrow : (List.replicate N (List.replicate N (0 : Nat))).getD a []
        = List.replicate N 0 := by
      rw [List.getD_eq_getElem?_getD, List.getElem?_replicate, if_pos h]
      rfl
    rw [hrow, List.getD_eq_getElem?_getD, List.getElem?_replicate]
    rcases Nat.lt_or_ge b N with h2 | h2
    · rw [if_pos h2]
      rfl
    · rw [if_neg (by omega)]
      rfl
  · have hrow : (List.replicate N (List.replicate N (0 : Nat))).getD a [] = [] := by
      rw [List.getD_eq_getElem?_getD, List.getElem?_replicate, if_neg (by omega)]
      rfl
    rw [hrow]
    rfl

/-- The adjacency matrix is exactly the symmetric closure of the generated
link pairs (and 0 everywhere else). -/
theorem matGet_initAdj (N : Nat) (pairs : List (Nat × Nat))
    (hb : ∀ p ∈ pairs, p.1 < N ∧ p.2 < N) (a b : Nat) :
    matGet (initAdj N pairs) a b = if (a, b) ∈ pairs ∨ (b, a) ∈ pairs then 1 else 0 := by
  unfold initAdj
  rw [matGet_foldl N pairs _ (by rw [List.length_replicate]) ?rows hb a b,
    matGet_zero]
  case rows =>
    intro x hx
    have hrow : (List.replicate N (List.replicate N (0 : Nat))).getD x []
        = List.replicate N 0 := by
      rw [List.getD_eq_getElem?_getD, List.getElem?_replicate, if_pos hx]
      rfl
    rw [hrow, List.length_replicate]

/-! ### C2 / C10 — adjacency matrix and link dictionary -/

theorem proxytree_adjancy (depth : Nat)
    (server_c link_c idle_pc dyn_pc datar_avg : Int) (cpu dr : List Int) (il : List Nat) :
    (proxytree depth server_c link_c idle_pc dyn_pc datar_avg cpu dr il).adjancy_list
      = initAdj (NODESn depth) (linkPairs depth) := rfl

theorem proxytree_link_dict (depth : Nat)
    (server_c link_c idle_pc dyn_pc datar_avg : Int) (cpu dr : List Int) (il : List Nat) :
    (proxytree depth server_c link_c idle_pc dyn_pc datar_avg cpu dr il).link_dict
      = dictFrom 0 (linkPairs depth) := rfl

theorem proxytree_LINKS (depth : Nat)
    (server_c link_c idle_pc dyn_pc datar_avg : Int) (cpu dr : List Int) (il : List Nat) :
    (proxytree depth server_c link_c idle_pc dyn_pc datar_avg cpu dr il).LINKS
      = initLinks depth := rfl

theorem proxytree_SWITCHES (depth : Nat)
    (server_c link_c idle_pc dyn_pc datar_avg : Int) (cpu dr : List Int) (il : List Nat) :
    (proxytree depth server_c link_c idle_pc dyn_pc datar_avg cpu dr il).SWITCHES
      = SWITCHESn depth := rfl

/-- Unpack a successful dictionary lookup: the key is one of the two
orderings of the `l`-th generated pair. -/
theorem dictGet_characterize {ps : List (Nat × Nat)} {a b l : Nat}
    (h : dictGet (dictFrom 0 ps) (a, b) = some l) :
    ∃ p, ps[l]? = some p ∧ ((a, b) = p ∨ (a, b) = (p.2, p.1)) := by
  unfold dictGet at h
  cases hfind : (dictFrom 0 ps).find? (fun e => e.1 == (a, b)) with
  | none =>
    rw [hfind] at h
    simp at h
  | some e =>
    rw [hfind] at h
    have he2 : e.2 = l := by simpa using h
    have hmem := List.mem_of_find?_eq_some hfind
    obtain ⟨i, p, hip, hei, hor⟩ := mem_dictFrom hmem
    have hkey : e.1 = (a, b) := by
      have := List.find?_some hfind
      simpa using this
    have hil : i = l := by omega
    subst hil
    exact ⟨p, hip, by rw [← hkey]; exact hor⟩

/-- C2: the adjacency matrix is symmetric with zero diagonal, and
`link_dict` is a bijection from adjacent node pairs onto `[0, LINKS)`:
both orderings of every adjacent pair resolve to the same link id, every id
below `LINKS` is reached, and no two distinct unordered pairs share an id. -/
theorem adjacency_linkdict_spec (depth : Nat)
    (server_c link_c idle_pc dyn_pc datar_avg : Int) (cpu dr : List Int) (il : List Nat)
    (hd : 1 ≤ depth) :
    (∀ a b,
      matGet (proxytree depth server_c link_c idle_pc dyn_pc datar_avg cpu dr il).adjancy_list a b
        = matGet (proxytree depth server_c link_c idle_pc dyn_pc datar_avg cpu dr il).adjancy_list b a)
    ∧ (∀ a,
      matGet (proxytree depth server_c link_c idle_pc dyn_pc datar_avg cpu dr il).adjancy_list a a
        = 0)
    ∧ (∀ a b,
      matGet (proxytree depth server_c link_c idle_pc dyn_pc datar_avg cpu dr il).adjancy_list a b
          = 1 →
      ∃ l, l < (proxytree depth server_c link_c idle_pc dyn_pc datar_avg cpu dr il).LINKS
        ∧ dictGet (proxytree depth server_c link_c idle_pc dyn_pc datar_avg cpu dr il).link_dict
            (a, b) = some l
        ∧ dictGet (proxytree depth server_c link_c idle_pc dyn_pc datar_avg cpu dr il).link_dict
            (b, a) = some l)
    ∧ (∀ l, l < (proxytree depth server_c link_c idle_pc dyn_pc datar_avg cpu dr il).LINKS →
      ∃ a b,
        matGet (proxytree depth server_c link_c idle_pc dyn_pc datar_avg cpu dr il).adjancy_list
            a b = 1
        ∧ dictGet (proxytree depth server_c link_c idle_pc dyn_pc datar_avg cpu dr il).link_dict
            (a, b) = some l)
    ∧ (∀ a b a' b' l,
      dictGet (proxytree depth server_c link_c idle_pc dyn_pc datar_avg cpu dr il).link_dict
          (a, b) = some l →
      dictGet (proxytree depth server_c link_c idle_pc dyn_pc datar_avg cpu dr il).link_dict
          (a', b') = some l →
      ((a, b) = (a', b') ∨ (a, b) = (b', a'))) := by
  have hbounds : ∀ p ∈ linkPairs depth, p.1 < NODESn depth ∧ p.2 < NODESn depth := by
    intro p hp
    obtain ⟨h1, h2, h3⟩ := linkPairs_props hd hp
    have hsw : SWITCHESn depth ≤ NODESn depth := by
      unfold NODESn
      omega
    omega
  have hord : ∀ p ∈ linkPairs depth, p.1 < p.2 :=
    fun p hp => (linkPairs_props hd hp).1
  have hnd := linkPairs_nodup depth hd
  have hadj : ∀ a b,
      matGet (initAdj (NODESn depth) (linkPairs depth)) a b
        = if (a, b) ∈ linkPairs depth ∨ (b, a) ∈ linkPairs depth then 1 else 0 :=
    matGet_initAdj _ _ hbounds
  rw [proxytree_adjancy, proxytree_link_dict, proxytree_LINKS]
  refine ⟨?_, ?_, ?_, ?_, ?_⟩
  · intro a b
    rw [hadj a b, hadj b a]
    by_cases hc : (a, b) ∈ linkPairs depth ∨ (b, a) ∈ linkPairs depth
    · rw [if_pos hc, if_pos (Or.symm hc)]
    · rw [if_neg hc, if_neg (fun h => hc (Or.symm h))]
  · intro a
    rw [hadj a a, if_neg ?diag]
    case diag =>
      rintro (h | h) <;> exact absurd (hord _ h) (Nat.lt_irrefl a)
  · intro a b hab
    rw [hadj a b] at hab
    by_cases hc : (a, b) ∈ linkPairs depth ∨ (b, a) ∈ linkPairs depth
    · rcases hc with h | h
      · obtain ⟨i, hi⟩ := List.mem_iff_getElem?.mp h
        have hilen : i < (linkPairs depth).length := by
          by_contra hcon
          rw [List.getElem?_eq_none (by omega)] at hi
          exact absurd hi (by simp)
        refine ⟨i, ?_, ?_, ?_⟩
        · rw [← length_linkPairs]
          exact hilen
        · have := find_key_dictFrom (linkPairs depth) hord hnd 0 i a b (a, b) hi
            (Or.inl rfl)
          simpa using this
        · have := find_key_dictFrom (linkPairs depth) hord hnd 0 i b a (a, b) hi
            (Or.inr rfl)
          simpa using this
      · obtain ⟨i, hi⟩ := List.mem_iff_getElem?.mp h
        have hilen : i < (linkPairs depth).length := by
          by_contra hcon
          rw [List.getElem?_eq_none (by omega)] at hi
          exact absurd hi (by simp)
        refine ⟨i, ?_, ?_, ?_⟩
        · rw [← length_linkPairs]
          exact hilen
        · have := find_key_dictFrom (linkPairs depth) hord hnd 0 i a b (b, a) hi
            (Or.inr rfl)
          simpa using this
        · have := find_key_dictFrom (linkPairs depth) hord hnd 0 i b a (b, a) hi
            (Or.inl rfl)
          simpa using this
    · rw [if_neg hc] at hab
      exact absurd hab (by omega)
  · intro l hl
    have hl' : l < (linkPairs depth).length := by
      rw [length_linkPairs]
      exact hl
    have hp : (linkPairs depth)[l]? = some ((linkPairs depth)[l]) :=
      List.getElem?_eq_getElem hl'
    refine ⟨(linkPairs depth)[l].1, (linkPairs depth)[l].2, ?_, ?_⟩
    · rw [hadj, if_pos (Or.inl (by rw [Prod.mk.eta]; exact List.getElem?_mem hp))]
    · have := find_key_dictFrom (linkPairs depth) hord hnd 0 l
        (linkPairs depth)[l].1 (linkPairs depth)[l].2 ((linkPairs depth)[l]) hp
        (Or.inl (Prod.mk.eta))
      simpa using this
  · intro a b a' b' l h1 h2
    obtain ⟨p, hp, hor⟩ := dictGet_characterize h1
    obtain ⟨p', hp', hor'⟩ := dictGet_characterize h2
    have hpp : p = p' := by
      rw [hp] at hp'
      exact Option.some_inj.mp hp'
    subst hpp
    rcases hor with h | h <;> rcases hor' with h' | h'
    · exact Or.inl (h.trans h'.symm)
    · right
      have e1 : a = p.1 := congrArg Prod.fst h
      have e2 : b = p.2 := congrArg Prod.snd h
      have f1 : a' = p.2 := congrArg Prod.fst h'
      have f2 : b' = p.1 := congrArg Prod.snd h'
      rw [e1, e2, f1, f2]
    · right
      have e1 : a = p.2 := congrArg Prod.fst h
      have e2 : b = p.1 := congrArg Prod.snd h
      have f1 : a' = p.1 := congrArg Prod.fst h'
      have f2 : b' = p.2 := congrArg Prod.snd h'
      rw [e1, e2, f1, f2]
    · exact Or.inl (h.trans h'.symm)

/-- C2 witness at `depth = 2`. -/
theorem adjacency_linkdict_spec_witness :
    1 ≤ 2
    ∧ ((∀ a b, matGet (proxytreeDet 2 10 5 10 2 4).adjancy_list a b
          = matGet (proxytreeDet 2 10 5 10 2 4).adjancy_list b a)
      ∧ (∀ a, matGet (proxytreeDet 2 10 5 10 2 4).adjancy_list a a = 0)
      ∧ (∀ a b, matGet (proxytreeDet 2 10 5 10 2 4).adjancy_list a b = 1 →
          ∃ l, l < (proxytreeDet 2 10 5 10 2 4).LINKS
            ∧ dictGet (proxytreeDet 2 10 5 10 2 4).link_dict (a, b) = some l
            ∧ dictGet (proxytreeDet 2 10 5 10 2 4).link_dict (b, a) = some l)
      ∧ (∀ l, l < (proxytreeDet 2 10 5 10 2 4).LINKS →
          ∃ a b, matGet (proxytreeDet 2 10 5 10 2 4).adjancy_list a b = 1
            ∧ dictGet (proxytreeDet 2 10 5 10 2 4).link_dict (a, b) = some l)
      ∧ (∀ a b a' b' l,
          dictGet (proxytreeDet 2 10 5 10 2 4).link_dict (a, b) = some l →
          dictGet (proxytreeDet 2 10 5 10 2 4).link_dict (a', b') = some l →
          ((a, b) = (a', b') ∨ (a, b) = (b', a')))) :=
  ⟨by decide,
   adjacency_linkdict_spec 2 10 5 10 2 4
     (List.replicate (VMSn 2) (Int.fdiv 10 2 + 1))
     (List.replicate (FLOWSn 2) 4) (List.range (VMSn 2)) (by decide)⟩

/-- C10: for every link id `l < LINKS`, `get_nodes` returns a pair
`(n1, n2)` with `n1 < n2`, the first endpoint a switch (`n1 < SWITCHES`),
and `link_dict` maps that pair back to `l`. -/
theorem get_nodes_spec (depth : Nat)
    (server_c link_c idle_pc dyn_pc datar_avg : Int) (cpu dr : List Int) (il : List Nat)
    (hd : 1 ≤ depth) (l : Nat)
    (hl : l < (proxytree depth server_c link_c idle_pc dyn_pc datar_avg cpu dr il).LINKS) :
    ∃ n1 n2,
      get_nodes l (proxytree depth server_c link_c idle_pc dyn_pc datar_avg cpu dr il).link_dict
          = some (n1, n2)
      ∧ n1 < n2
      ∧ n1 < (proxytree depth server_c link_c idle_pc dyn_pc datar_avg cpu dr il).SWITCHES
      ∧ dictGet (proxytree depth server_c link_c idle_pc dyn_pc datar_avg cpu dr il).link_dict
          (n1, n2) = some l := by
  rw [proxytree_LINKS] at hl
  rw [proxytree_link_dict, proxytree_SWITCHES]
  have hl' : l < (linkPairs depth).length := by
    rw [length_linkPairs]
    exact hl
  have hp : (linkPairs depth)[l]? = some ((linkPairs depth)[l]) :=
    List.getElem?_eq_getElem hl'
  have hmem : (linkPairs depth)[l] ∈ linkPairs depth := List.getElem?_mem hp
  obtain ⟨hlt, hswb, _⟩ := linkPairs_props hd hmem
  refine ⟨(linkPairs depth)[l].1, (linkPairs depth)[l].2, ?_, hlt, hswb, ?_⟩
  · rw [get_nodes_dictFrom, hp, Prod.mk.eta]
  · have hord : ∀ p ∈ linkPairs depth, p.1 < p.2 :=
      fun p hp => (linkPairs_props hd hp).1
    have := find_key_dictFrom (linkPairs depth) hord (linkPairs_nodup depth hd) 0 l
      (linkPairs depth)[l].1 (linkPairs depth)[l].2 ((linkPairs depth)[l]) hp
      (Or.inl (Prod.mk.eta))
    simpa using this

/-- C10 witness at `depth = 2`, link 3. -/
theorem get_nodes_spec_witness :
    (1 ≤ 2 ∧ 3 < (proxytreeDet 2 10 5 10 2 4).LINKS)
    ∧ (∃ n1 n2, get_nodes 3 (proxytreeDet 2 10 5 10 2 4).link_dict = some (n1, n2)
        ∧ n1 < n2 ∧ n1 < (proxytreeDet 2 10 5 10 2 4).SWITCHES
        ∧ dictGet (proxytreeDet 2 10 5 10 2 4).link_dict (n1, n2) = some 3) :=
  ⟨⟨by decide, by decide⟩,
   get_nodes_spec 2 10 5 10 2 4
     (List.replicate (VMSn 2) (Int.fdiv 10 2 + 1))
     (List.replicate (FLOWSn 2) 4) (List.range (VMSn 2)) (by decide) 3 (by decide)⟩

/-! ### Evaluation of affine expressions -/

theorem Aff.eval_add (σ : String → Int) (a b : Aff) :
    (Aff.add a b).eval σ = a.eval σ + b.eval σ := by
  unfold Aff.add Aff.eval
  rw [List.map_append, List.sum_append]
  ring

theorem Aff.eval_sub (σ : String → Int) (a b : Aff) :
    (Aff.sub a b).eval σ = a.eval σ - b.eval σ := by
  unfold Aff.sub Aff.eval
  rw [List.map_append, List.sum_append, List.map_map]
  have hneg : (List.map ((fun tv => tv.1 * σ tv.2) ∘ fun tv : Int × String =>
      (-tv.1, tv.2)) b.terms).sum = -(List.map (fun tv => tv.1 * σ tv.2) b.terms).sum := by
    induction b.terms with
    | nil => simp
    | cons x ts ih =>
      simp only [List.map_cons, List.sum_cons, ih, Function.comp]
      ring
  rw [hneg]
  ring

theorem Aff.eval_smul (σ : String → Int) (c : Int) (a : Aff) :
    (Aff.smul c a).eval σ = c * a.eval σ := by
  unfold Aff.smul Aff.eval
  rw [List.map_map]
  have hmul : (List.map ((fun tv => tv.1 * σ tv.2) ∘ fun tv : Int × String =>
      (c * tv.1, tv.2)) a.terms).sum
      = c * (List.map (fun tv => tv.1 * σ tv.2) a.terms).sum := by
    induction a.terms with
    | nil => simp
    | cons x ts ih =>
      simp only [List.map_cons, List.sum_cons, ih, Function.comp]
      ring
  rw [hmul]
  ring

theorem Aff.eval_var (σ : String → Int) (v : String) : (Aff.var v).eval σ = σ v := by
  unfold Aff.var Aff.eval
  simp

theorem Aff.eval_cst (σ : String → Int) (c : Int) : (Aff.cst c).eval σ = c := by
  unfold Aff.cst Aff.eval
  simp

theorem Aff.eval_foldl (σ : String → Int) (l : List Aff) : ∀ acc : Aff,
    (l.foldl Aff.add acc).eval σ = acc.eval σ + (l.map (fun a => a.eval σ)).sum := by
  induction l with
  | nil =>
    intro acc
    simp
  | cons x ts ih =>
    intro acc
    rw [List.foldl_cons, ih (acc.add x), Aff.eval_add, List.map_cons, List.sum_cons]
    ring

theorem Aff.eval_sum (σ : String → Int) (l : List Aff) :
    (Aff.sum l).eval σ = (l.map (fun a => a.eval σ)).sum := by
  unfold Aff.sum
  rw [Aff.eval_foldl, Aff.eval_cst]
  ring

/-!
### C5 — the placement objective

Claim: both placement builders set the objective to
`Σ_s serverOn[s]·idlePower[SWITCHES+s] +
 Σ_s Σ_vm dynPower[SWITCHES+s]·cpuUtil[vm]·vmOn[s][vm]`, `vmOn[s][vm]` being
the variable named `vm<vm>-s<s>`.  The DWAVE `vm_model` satisfies this for
every topology; the IBM `vm_cplex_model` does NOT: its second objective term
reads `vm_status[vm][s]` — index-transposed against the construction
`vm_status[s][vm] = Binary("vm<vm>-s<s>")` — so the coefficient of variable
`vm<i>-s<j>` becomes `dynPower·cpuUtil[j]` instead of `dynPower·cpuUtil[i]`.
The two coincide only while `cpu_util` is constant (the non-randomized
branch); on a randomized topology with `cpu_util = [6, 7]` they differ.
-/

/-- C5: (i) the DWAVE placement objective equals the claimed formula for
every topology and assignment; (ii) the IBM placement objective violates it
on the randomized `depth = 1` topology with `cpu_util = [6, 7]` at the
assignment `vm0-s1 = 1` (all other variables 0): it evaluates to 7 where
the claimed formula gives 6. -/
theorem placement_objective_spec :
    (∀ (t : Proxytree) (σ : String → Int),
      ((vm_model t).1).eval σ
        = (∑ s ∈ Finset.range t.SERVERS,
            σ (sName s) * t.idle_powcons.getD (s + t.SWITCHES) 0)
          + ∑ s ∈ Finset.range t.SERVERS, ∑ vm ∈ Finset.range t.VMS,
              t.dyn_powcons.getD (s + t.SWITCHES) 0 * t.cpu_util.getD vm 0
                * σ (vmName vm s))
    ∧ ((vm_cplex_model (proxytree 1 10 5 10 2 4 [6, 7] [4] [0, 1])).1.eval
          (fun v => if v == "vm0-s1" then 1 else 0)
        ≠ (∑ s ∈ Finset.range (proxytree 1 10 5 10 2 4 [6, 7] [4] [0, 1]).SERVERS,
            (fun v => if v == "vm0-s1" then (1:Int) else 0) (sName s)
              * (proxytree 1 10 5 10 2 4 [6, 7] [4] [0, 1]).idle_powcons.getD
                  (s + (proxytree 1 10 5 10 2 4 [6, 7] [4] [0, 1]).SWITCHES) 0)
          + ∑ s ∈ Finset.range (proxytree 1 10 5 10 2 4 [6, 7] [4] [0, 1]).SERVERS,
              ∑ vm ∈ Finset.range (proxytree 1 10 5 10 2 4 [6, 7] [4] [0, 1]).VMS,
                (proxytree 1 10 5 10 2 4 [6, 7] [4] [0, 1]).dyn_powcons.getD
                    (s + (proxytree 1 10 5 10 2 4 [6, 7] [4] [0, 1]).SWITCHES) 0
                  * (proxytree 1 10 5 10 2 4 [6, 7] [4] [0, 1]).cpu_util.getD vm 0
                  * (fun v => if v == "vm0-s1" then (1:Int) else 0) (vmName vm s)) := by
  constructor
  · intro t σ
    show (Aff.add (objTerm1 t) (objTerm2 t)).eval σ = _
    rw [Aff.eval_add]
    have h1 : (objTerm1 t).eval σ
        = ∑ s ∈ Finset.range t.SERVERS,
            σ (sName s) * t.idle_powcons.getD (s + t.SWITCHES) 0 := by
      unfold objTerm1
      rw [Aff.eval_sum, List.map_map]
      have h0 : List.map ((fun a => Aff.eval σ a) ∘ fun s =>
            Aff.smul (t.idle_powcons.getD (s + t.SWITCHES) 0)
              ((serverStatusList t).getD s (Aff.cst 0))) (List.range t.SERVERS)
          = List.map (fun s => σ (sName s) * t.idle_powcons.getD (s + t.SWITCHES) 0)
              (List.range t.SERVERS) := by
        apply List.map_congr_left
        intro s hs
        rw [List.mem_range] at hs
        show (Aff.smul _ _).eval σ = _
        unfold serverStatusList
        rw [Aff.eval_smul, getD_map_range _ hs, Aff.eval_var]
        ring
      rw [h0, sum_map_range]
    have h2 : (objTerm2 t).eval σ
        = ∑ s ∈ Finset.range t.SERVERS, ∑ vm ∈ Finset.range t.VMS,
            t.dyn_powcons.getD (s + t.SWITCHES) 0 * t.cpu_util.getD vm 0
              * σ (vmName vm s) := by
      unfold objTerm2
      rw [Aff.eval_sum, List.map_map]
      have h0 : List.map ((fun a => Aff.eval σ a) ∘ fun s =>
            Aff.smul (t.dyn_powcons.getD (s + t.SWITCHES) 0)
              (Aff.sum ((List.range t.VMS).map (fun vm =>
                Aff.smul (t.cpu_util.getD vm 0)
                  (((vmStatusLists t).getD s []).getD vm (Aff.cst 0))))))
            (List.range t.SERVERS)
          = List.map (fun s => ∑ vm ∈ Finset.range t.VMS,
              t.dyn_powcons.getD (s + t.SWITCHES) 0 * t.cpu_util.getD vm 0
                * σ (vmName vm s)) (List.range t.SERVERS) := by
        apply List.map_congr_left
        intro s hs
        rw [List.mem_range] at hs
        show (Aff.smul _ _).eval σ = _
        rw [Aff.eval_smul, Aff.eval_sum, List.map_map]
        have hin : List.map ((fun a => Aff.eval σ a) ∘ fun vm =>
              Aff.smul (t.cpu_util.getD vm 0)
                (((vmStatusLists t).getD s []).getD vm (Aff.cst 0)))
              (List.range t.VMS)
            = List.map (fun vm => t.cpu_util.getD vm 0 * σ (vmName vm s))
                (List.range t.VMS) := by
          apply List.map_congr_left
          intro vm hvm
          rw [List.mem_range] at hvm
          show (Aff.smul _ _).eval σ = _
          unfold vmStatusLists
          rw [getD_map_range _ hs, getD_map_range _ hvm, Aff.eval_smul, Aff.eval_var]
        rw [hin, sum_map_range, Finset.mul_sum]
        apply Finset.sum_congr rfl
        intro vm _
        ring
      rw [h0, sum_map_range]
    rw [h1, h2]
  · decide

/-! ### C4 — missing assignment lookups in the routing builders -/

theorem proxytree_FLOWS (depth : Nat)
    (server_c link_c idle_pc dyn_pc datar_avg : Int) (cpu dr : List Int) (il : List Nat) :
    (proxytree depth server_c link_c idle_pc dyn_pc datar_avg cpu dr il).FLOWS
      = FLOWSn depth := rfl

theorem proxytree_SERVERS (depth : Nat)
    (server_c link_c idle_pc dyn_pc datar_avg : Int) (cpu dr : List Int) (il : List Nat) :
    (proxytree depth server_c link_c idle_pc dyn_pc datar_avg cpu dr il).SERVERS
      = SERVERSn depth := rfl

theorem proxytree_src_dst (depth : Nat)
    (server_c link_c idle_pc dyn_pc datar_avg : Int) (cpu dr : List Int) (il : List Nat) :
    (proxytree depth server_c link_c idle_pc dyn_pc datar_avg cpu dr il).src_dst
      = initSrcDst (FLOWSn depth) il := rfl

theorem getD_mem {α : Type} {l : List α} {i : Nat} (h : i < l.length) (d : α) :
    l.getD i d ∈ l := by
  rw [List.getD_eq_getElem?_getD, List.getElem?_eq_getElem h]
  exact List.getElem_mem h

theorem optTraverse_isSome {α : Type} {l : List (Option α)}
    (h : ∀ x ∈ l, x.isSome) : (optTraverse l).isSome := by
  induction l with
  | nil => rfl
  | cons x t ih =>
    cases x with
    | none =>
      have hx := h none (List.mem_cons_self _ _)
      simp at hx
    | some a =>
      show ((optTraverse t).map (fun r => a :: r)).isSome
      have ht := ih (fun y hy => h y (List.mem_cons_of_mem _ hy))
      cases htrav : optTraverse t with
      | none => rw [htrav] at ht; simp at ht
      | some r => rfl

theorem VMSn_two_flows (depth : Nat) (hd : 1 ≤ depth) :
    VMSn depth = 2 * FLOWSn depth := by
  have hpar : VMSn depth % 2 = 0 := by
    unfold VMSn SERVERSn
    obtain ⟨k, rfl⟩ := Nat.exists_eq_add_of_le hd
    rw [pow_add, pow_one]
    omega
  unfold FLOWSn
  rw [if_pos hpar]
  omega

/-- The endpoints of each flow, resolved through the constructor, and their
bounds given a shuffled `index_list`. -/
theorem srcDst_getD (depth : Nat) (il : List Nat) (hd : 1 ≤ depth)
    (hperm : il.Perm (List.range (VMSn depth))) (f : Nat) (hf : f < FLOWSn depth) :
    (initSrcDst (FLOWSn depth) il).getD f (0, 0)
        = (il.getD (f * 2) 0, il.getD (f * 2 + 1) 0)
    ∧ il.getD (f * 2) 0 < VMSn depth ∧ il.getD (f * 2 + 1) 0 < VMSn depth := by
  have hlen : il.length = VMSn depth := by
    rw [hperm.length_eq, List.length_range]
  have h2f := VMSn_two_flows depth hd
  have hb1 : f * 2 < il.length := by omega
  have hb2 : f * 2 + 1 < il.length := by omega
  refine ⟨?_, ?_, ?_⟩
  · unfold initSrcDst
    rw [getD_map_range _ hf]
  · have := hperm.mem_iff.mp (getD_mem hb1 0)
    rw [List.mem_range] at this
    exact this
  · have := hperm.mem_iff.mp (getD_mem hb2 0)
    rw [List.mem_range] at this
    exact this

theorem pathC15gen_isSome (depth : Nat)
    (server_c link_c idle_pc dyn_pc datar_avg : Int) (cpu dr : List Int) (il : List Nat)
    (σ : Assignment) (lbl : Nat → String) (hd : 1 ≤ depth)
    (hperm : il.Perm (List.range (VMSn depth)))
    (hvm : ∀ vm, vm < VMSn depth → ∀ s, s < SERVERSn depth →
      (aget σ (vmName vm s)).isSome) :
    (pathC15gen (proxytree depth server_c link_c idle_pc dyn_pc datar_avg cpu dr il)
      σ lbl).isSome := by
  apply optTraverse_isSome
  intro x hx
  simp only [List.mem_flatMap, List.mem_map, List.mem_range, List.mem_range'_1,
    proxytree_FLOWS, proxytree_SWITCHES, proxytree_SERVERS, proxytree_src_dst] at hx
  obtain ⟨f, hf, s, hs, rfl⟩ := hx
  obtain ⟨hEq, hsb1, hsb2⟩ := srcDst_getD depth il hd hperm f hf
  rw [hEq]
  have hsrange : s - SWITCHESn depth < SERVERSn depth := by omega
  obtain ⟨a, ha⟩ := Option.isSome_iff_exists.mp (hvm _ hsb1 _ hsrange)
  obtain ⟨b, hb⟩ := Option.isSome_iff_exists.mp (hvm _ hsb2 _ hsrange)
  rw [ha, hb]
  rfl

theorem get_nodes_isSome (depth : Nat)
    (server_c link_c idle_pc dyn_pc datar_avg : Int) (cpu dr : List Int) (il : List Nat)
    (l : Nat) (hl : l < initLinks depth) :
    ∃ p, get_nodes l (proxytree depth server_c link_c idle_pc dyn_pc datar_avg
        cpu dr il).link_dict = some p ∧ p ∈ linkPairs depth := by
  rw [proxytree_link_dict, get_nodes_dictFrom]
  have hl' : l < (linkPairs depth).length := by
    rw [length_linkPairs]
    exact hl
  exact ⟨_, List.getElem?_eq_getElem hl', List.getElem_mem hl'⟩

theorem c17gen_isSome (depth : Nat)
    (server_c link_c idle_pc dyn_pc datar_avg : Int) (cpu dr : List Int) (il : List Nat)
    (lbl : Nat → String) (_hd : 1 ≤ depth) :
    (c17gen (proxytree depth server_c link_c idle_pc dyn_pc datar_avg cpu dr il)
      lbl).isSome := by
  apply optTraverse_isSome
  intro x hx
  simp only [List.mem_map, List.mem_range, proxytree_LINKS] at hx
  obtain ⟨l, hl, rfl⟩ := hx
  obtain ⟨p, hp, _⟩ :=
    get_nodes_isSome depth server_c link_c idle_pc dyn_pc datar_avg cpu dr il l hl
  rw [hp]
  rfl

theorem pathC1819gen_isSome (depth : Nat)
    (server_c link_c idle_pc dyn_pc datar_avg : Int) (cpu dr : List Int) (il : List Nat)
    (σ : Assignment) (lbl18 lbl19 : Nat → String) (hd : 1 ≤ depth)
    (hs : ∀ s, s < SERVERSn depth → (aget σ (sName s)).isSome) :
    (pathC1819gen (proxytree depth server_c link_c idle_pc dyn_pc datar_avg cpu dr il)
      σ lbl18 lbl19).isSome := by
  apply optTraverse_isSome
  intro x hx
  simp only [List.mem_flatMap, List.mem_range, proxytree_LINKS] at hx
  obtain ⟨l, hl, hx⟩ := hx
  obtain ⟨p, hp, hmem⟩ :=
    get_nodes_isSome depth server_c link_c idle_pc dyn_pc datar_avg cpu dr il l hl
  rw [hp] at hx
  obtain ⟨hord, hsw, hnode⟩ := linkPairs_props hd hmem
  rcases List.mem_cons.mp hx with rfl | hx
  · rfl
  rcases List.mem_cons.mp hx with rfl | hx
  · unfold pathC19At
    by_cases hlt : p.2
        < (proxytree depth server_c link_c idle_pc dyn_pc datar_avg cpu dr il).SWITCHES
    · rw [if_pos hlt]
      rfl
    · rw [if_neg hlt]
      rw [proxytree_SWITCHES] at hlt ⊢
      have hn2 : p.2 - SWITCHESn depth < SERVERSn depth := by
        have hN : NODESn depth = SERVERSn depth + SWITCHESn depth := rfl
        omega
      obtain ⟨v, hv⟩ := Option.isSome_iff_exists.mp (hs _ hn2)
      rw [hv]
      rfl
  · exact absurd hx (List.not_mem_nil x)

/-! ### C6 — the C13/C14 generation condition -/

theorem flatMap_congr_left {α β : Type} {l : List α} {f g : α → List β}
    (h : ∀ a ∈ l, f a = g a) : l.flatMap f = l.flatMap g := by
  induction l with
  | nil => simp
  | cons a t ih =>
    rw [List.flatMap_cons, List.flatMap_cons, h a (List.mem_cons_self a t),
      ih (fun x hx => h x (List.mem_cons_of_mem a hx))]

/-- C6 counterexample (with the claim's reading "skipped exactly when the
fixed value is 0"): on the `depth = 1` topology with the placement
`vm0 -> s0`, `vm1 -> s1`, the fixed value of flow 0's source VM at server
node 2 is 0, yet its C13 constraint IS generated (the only one, label
`C13-N2`); conversely at server node 1 the value is 1 and no constraint is
generated.  The same holds for C14 and for the unlabelled docplex variant. -/
theorem c13_generation_counterexample :
    aget [("vm0-s0", 1), ("vm1-s1", 1), ("vm0-s1", 0), ("vm1-s0", 0),
        ("s0", 1), ("s1", 1)] (vmName 0 1) = some 0
    ∧ (pathC13gen (proxytreeDet 1 10 5 10 2 4)
        [("vm0-s0", 1), ("vm1-s1", 1), ("vm0-s1", 0), ("vm1-s0", 0),
          ("s0", 1), ("s1", 1)] (dwaveLbl "C13")).map (fun c => c.label) = ["C13-N2"]
    ∧ (pathC14gen (proxytreeDet 1 10 5 10 2 4)
        [("vm0-s0", 1), ("vm1-s1", 1), ("vm0-s1", 0), ("vm1-s0", 0),
          ("s0", 1), ("s1", 1)] (dwaveLbl "C14")).map (fun c => c.label) = ["C14-N1"]
    ∧ (pathC13gen (proxytreeDet 1 10 5 10 2 4)
        [("vm0-s0", 1), ("vm1-s1", 1), ("vm0-s1", 0), ("vm1-s0", 0),
          ("s0", 1), ("s1", 1)] noLbl).length = 1 := by
  decide

/-- C6 amended: the boundary constraints C13/C14 are GENERATED exactly for
those (flow, server) pairs whose fixed placement value equals 0 (the
constraint being `boundary sum == 0`), and skipped for all others —
including a value of 1 and a missing key: the generation of the whole
family is the filter `vm_solution.get(key) == 0` over all (flow, server)
pairs, with flow `f`'s source VM resolving to `index_list[2f]` and
destination to `index_list[2f+1]`. -/
theorem c13_c14_generation (depth : Nat)
    (server_c link_c idle_pc dyn_pc datar_avg : Int) (cpu dr : List Int) (il : List Nat)
    (σ : Assignment) (hd : 1 ≤ depth) (hperm : il.Perm (List.range (VMSn depth))) :
    pathC13gen (proxytree depth server_c link_c idle_pc dyn_pc datar_avg cpu dr il) σ
        (dwaveLbl "C13")
      = (List.range (FLOWSn depth)).flatMap (fun f =>
          ((List.range' (SWITCHESn depth) (SERVERSn depth)).filter (fun s =>
              aget σ (vmName (il.getD (f * 2) 0) (s - SWITCHESn depth)) == some 0)).map
            (fun s =>
              { label := dwaveLbl "C13" (f * SERVERSn depth + s)
                lhs := Aff.sum (((List.range (SWITCHESn depth)).filter
                    (fun sw => matGet (initAdj (NODESn depth) (linkPairs depth)) s sw
                      == 1)).map
                  (fun sw => Aff.var (fpName f s sw)))
                cmp := Cmp.eq
                rhs := 0 }))
    ∧ pathC14gen (proxytree depth server_c link_c idle_pc dyn_pc datar_avg cpu dr il) σ
        (dwaveLbl "C14")
      = (List.range (FLOWSn depth)).flatMap (fun f =>
          ((List.range' (SWITCHESn depth) (SERVERSn depth)).filter (fun s =>
              aget σ (vmName (il.getD (f * 2 + 1) 0) (s - SWITCHESn depth)) == some 0)).map
            (fun s =>
              { label := dwaveLbl "C14" (f * SERVERSn depth + s)
                lhs := Aff.sum (((List.range (SWITCHESn depth)).filter
                    (fun sw => matGet (initAdj (NODESn depth) (linkPairs depth)) sw s
                      == 1)).map
                  (fun sw => Aff.var (fpName f sw s)))
                cmp := Cmp.eq
                rhs := 0 })) := by
  constructor
  · show (List.range (FLOWSn depth)).flatMap _ = _
    apply flatMap_congr_left
    intro f hf
    rw [List.mem_range] at hf
    obtain ⟨hEq, _, _⟩ := srcDst_getD depth il hd hperm f hf
    show ((List.range' (SWITCHESn depth) (SERVERSn depth)).filter (fun s =>
        aget σ (vmName ((initSrcDst (FLOWSn depth) il).getD f (0, 0)).1
          (s - SWITCHESn depth)) == some 0)).map _ = _
    rw [hEq]
    rfl
  · show (List.range (FLOWSn depth)).flatMap _ = _
    apply flatMap_congr_left
    intro f hf
    rw [List.mem_range] at hf
    obtain ⟨hEq, _, _⟩ := srcDst_getD depth il hd hperm f hf
    show ((List.range' (SWITCHESn depth) (SERVERSn depth)).filter (fun s =>
        aget σ (vmName ((initSrcDst (FLOWSn depth) il).getD f (0, 0)).2
          (s - SWITCHESn depth)) == some 0)).map _ = _
    rw [hEq]
    rfl

/-- C6 amended witness at `depth = 1`. -/
theorem c13_c14_generation_witness :
    (1 ≤ 1 ∧ ([0, 1] : List Nat).Perm (List.range (VMSn 1)))
    ∧ (pathC13gen (proxytree 1 10 5 10 2 4 [6, 6] [4] [0, 1])
        [("vm0-s0", 1), ("vm1-s1", 1), ("vm0-s1", 0), ("vm1-s0", 0),
          ("s0", 1), ("s1", 1)] (dwaveLbl "C13")
      = (List.range (FLOWSn 1)).flatMap (fun f =>
          ((List.range' (SWITCHESn 1) (SERVERSn 1)).filter (fun s =>
              aget [("vm0-s0", 1), ("vm1-s1", 1), ("vm0-s1", 0), ("vm1-s0", 0),
                  ("s0", 1), ("s1", 1)]
                (vmName (([0, 1] : List Nat).getD (f * 2) 0) (s - SWITCHESn 1))
                == some 0)).map
            (fun s =>
              { label := dwaveLbl "C13" (f * SERVERSn 1 + s)
                lhs := Aff.sum (((List.range (SWITCHESn 1)).filter
                    (fun sw => matGet (initAdj (NODESn 1) (linkPairs 1)) s sw == 1)).map
                  (fun sw => Aff.var (fpName f s sw)))
                cmp := Cmp.eq
                rhs := 0 }))) :=
  ⟨⟨by decide, by decide⟩,
   (c13_c14_generation 1 10 5 10 2 4 [6, 6] [4] [0, 1]
     [("vm0-s0", 1), ("vm1-s1", 1), ("vm0-s1", 0), ("vm1-s0", 0), ("s0", 1), ("s1", 1)]
     (by decide) (by decide)).1⟩

/-- C4 counterexample: both routing builders RAISE on the empty assignment
produced by an infeasible placement solve (the C15 arithmetic
`None - None` and the C19 `on - None` are `TypeError`s), and a missing
C13-guard lookup is NOT treated as 0: with the empty assignment the C13
family is empty, whereas a constant-0 reading would generate it for every
(flow, server) pair. -/
theorem routing_missing_lookup_counterexample :
    path_model (proxytreeDet 1 10 5 10 2 4) [] = none
    ∧ path_cplex_model (proxytreeDet 1 10 5 10 2 4) [] = none
    ∧ pathC13gen (proxytreeDet 1 10 5 10 2 4) [] (dwaveLbl "C13") = [] := by
  decide

/-- C4 amended: the routing builders do not raise exactly when the
assignment contains every referenced `vm<vm>-s<s>` and `s<s>` key; the empty
assignment (infeasible placement) raises a `TypeError` instead of being
read as all-zeros. -/
theorem routing_total_assignment (depth : Nat)
    (server_c link_c idle_pc dyn_pc datar_avg : Int) (cpu dr : List Int) (il : List Nat)
    (σ : Assignment) (hd : 1 ≤ depth)
    (hperm : il.Perm (List.range (VMSn depth)))
    (hvm : ∀ vm, vm < VMSn depth → ∀ s, s < SERVERSn depth →
      (aget σ (vmName vm s)).isSome)
    (hs : ∀ s, s < SERVERSn depth → (aget σ (sName s)).isSome) :
    (path_model (proxytree depth server_c link_c idle_pc dyn_pc datar_avg cpu dr il)
        σ).isSome
    ∧ (path_cplex_model (proxytree depth server_c link_c idle_pc dyn_pc datar_avg cpu dr il)
        σ).isSome := by
  constructor
  · obtain ⟨c15, h15⟩ := Option.isSome_iff_exists.mp
      (pathC15gen_isSome depth server_c link_c idle_pc dyn_pc datar_avg cpu dr il σ
        (dwaveLbl "C15") hd hperm hvm)
    obtain ⟨c17, h17⟩ := Option.isSome_iff_exists.mp
      (c17gen_isSome depth server_c link_c idle_pc dyn_pc datar_avg cpu dr il
        (dwaveLbl "C17") hd)
    obtain ⟨c1819, h1819⟩ := Option.isSome_iff_exists.mp
      (pathC1819gen_isSome depth server_c link_c idle_pc dyn_pc datar_avg cpu dr il σ
        (dwaveLbl "C18") (dwaveLbl "C19") hd hs)
    unfold path_model
    rw [h15, h17, h1819]
    rfl
  · obtain ⟨c15, h15⟩ := Option.isSome_iff_exists.mp
      (pathC15gen_isSome depth server_c link_c idle_pc dyn_pc datar_avg cpu dr il σ
        noLbl hd hperm hvm)
    obtain ⟨c17, h17⟩ := Option.isSome_iff_exists.mp
      (c17gen_isSome depth server_c link_c idle_pc dyn_pc datar_avg cpu dr il noLbl hd)
    obtain ⟨c1819, h1819⟩ := Option.isSome_iff_exists.mp
      (pathC1819gen_isSome depth server_c link_c idle_pc dyn_pc datar_avg cpu dr il σ
        noLbl noLbl hd hs)
    unfold path_cplex_model
    rw [h15, h17, h1819]
    rfl

/-- C4 amended witness: `depth = 1` with a complete placement assignment. -/
theorem routing_total_assignment_witness :
    (1 ≤ 1
      ∧ ([0, 1] : List Nat).Perm (List.range (VMSn 1))
      ∧ (∀ vm, vm < VMSn 1 → ∀ s, s < SERVERSn 1 →
          (aget [("vm0-s0", 1), ("vm1-s1", 1), ("vm0-s1", 0), ("vm1-s0", 0),
            ("s0", 1), ("s1", 1)] (vmName vm s)).isSome)
      ∧ (∀ s, s < SERVERSn 1 →
          (aget [("vm0-s0", 1), ("vm1-s1", 1), ("vm0-s1", 0), ("vm1-s0", 0),
            ("s0", 1), ("s1", 1)] (sName s)).isSome))
    ∧ ((path_model (proxytree 1 10 5 10 2 4 [6, 6] [4] [0, 1])
          [("vm0-s0", 1), ("vm1-s1", 1), ("vm0-s1", 0), ("vm1-s0", 0),
            ("s0", 1), ("s1", 1)]).isSome
      ∧ (path_cplex_model (proxytree 1 10 5 10 2 4 [6, 6] [4] [0, 1])
          [("vm0-s0", 1), ("vm1-s1", 1), ("vm0-s1", 0), ("vm1-s0", 0),
            ("s0", 1), ("s1", 1)]).isSome) :=
  ⟨⟨by decide, by decide, by decide, by decide⟩,
   routing_total_assignment 1 10 5 10 2 4 [6, 6] [4] [0, 1]
     [("vm0-s0", 1), ("vm1-s1", 1), ("vm0-s1", 0), ("vm1-s0", 0), ("s0", 1), ("s1", 1)]
     (by decide) (by decide) (by decide) (by decide)⟩

/-! ### C7 — routing model vs pinned joint model -/

theorem mem_of_optTraverse {α : Type} : ∀ {l : List (Option α)} {r : List α},
    optTraverse l = some r → ∀ c ∈ r, some c ∈ l := by
  intro l
  induction l with
  | nil =>
    intro r h c hc
    have hr : r = [] := (Option.some_inj.mp h).symm
    subst hr
    exact absurd hc (List.not_mem_nil c)
  | cons x t ih =>
    intro r h c hc
    cases x with
    | none => exact absurd h (by simp [optTraverse])
    | some a =>
      have h' : (optTraverse t).map (fun r => a :: r) = some r := h
      cases ht : optTraverse t with
      | none => rw [ht] at h'; exact absurd h' (by simp)
      | some r' =>
        rw [ht] at h'
        have hr : r = a :: r' := (Option.some_inj.mp h').symm
        subst hr
        rcases List.mem_cons.mp hc with rfl | hc
        · exact List.mem_cons_self _ _
        · exact List.mem_cons_of_mem _ (ih ht c hc)

theorem Aff.terms_var_none {σ : Assignment} {v : String} (h : aget σ v = none) :
    ∀ tv ∈ (Aff.var v).terms, aget σ tv.2 = none := by
  intro tv hm
  have he : tv = (1, v) := List.mem_singleton.mp hm
  rw [he]
  exact h

theorem Aff.terms_cst_none (σ : Assignment) (c : Int) :
    ∀ tv ∈ (Aff.cst c).terms, aget σ tv.2 = none := by
  intro tv hm
  exact absurd hm (List.not_mem_nil tv)

theorem Aff.terms_add_none {σ : Assignment} {a b : Aff}
    (ha : ∀ tv ∈ a.terms, aget σ tv.2 = none)
    (hb : ∀ tv ∈ b.terms, aget σ tv.2 = none) :
    ∀ tv ∈ (Aff.add a b).terms, aget σ tv.2 = none := by
  intro tv hm
  rcases List.mem_append.mp hm with h | h
  · exact ha tv h
  · exact hb tv h

theorem Aff.terms_sub_none {σ : Assignment} {a b : Aff}
    (ha : ∀ tv ∈ a.terms, aget σ tv.2 = none)
    (hb : ∀ tv ∈ b.terms, aget σ tv.2 = none) :
    ∀ tv ∈ (Aff.sub a b).terms, aget σ tv.2 = none := by
  intro tv hm
  rcases List.mem_append.mp hm with h | h
  · exact ha tv h
  · obtain ⟨tv', htv', rfl⟩ := List.mem_map.mp h
    exact hb tv' htv'

theorem Aff.terms_smul_none {σ : Assignment} {c : Int} {a : Aff}
    (ha : ∀ tv ∈ a.terms, aget σ tv.2 = none) :
    ∀ tv ∈ (Aff.smul c a).terms, aget σ tv.2 = none := by
  intro tv hm
  obtain ⟨tv', htv', rfl⟩ := List.mem_map.mp hm
  exact ha tv' htv'

theorem Aff.terms_foldl_none {σ : Assignment} : ∀ (l : List Aff) (acc : Aff),
    (∀ x ∈ l, ∀ tv ∈ x.terms, aget σ tv.2 = none) →
    (∀ tv ∈ acc.terms, aget σ tv.2 = none) →
    ∀ tv ∈ (l.foldl Aff.add acc).terms, aget σ tv.2 = none := by
  intro l
  induction l with
  | nil =>
    intro acc _ hacc
    exact hacc
  | cons x t ih =>
    intro acc hl hacc
    rw [List.foldl_cons]
    exact ih (acc.add x) (fun y hy => hl y (List.mem_cons_of_mem _ hy))
      (Aff.terms_add_none hacc (hl x (List.mem_cons_self _ _)))

theorem Aff.terms_sum_none {σ : Assignment} {l : List Aff}
    (h : ∀ x ∈ l, ∀ tv ∈ x.terms, aget σ tv.2 = none) :
    ∀ tv ∈ (Aff.sum l).terms, aget σ tv.2 = none :=
  Aff.terms_foldl_none l (Aff.cst 0) h (Aff.terms_cst_none σ 0)

/-- Pinning does nothing to an expression none of whose variables the
assignment knows. -/
theorem Aff.pin_self_of_none {σ : Assignment} {a : Aff}
    (h : ∀ tv ∈ a.terms, aget σ tv.2 = none) : a.pin σ = a := by
  cases a with
  | mk ts c =>
    unfold Aff.pin
    simp only [Aff.mk.injEq]
    constructor
    · apply List.filter_eq_self.mpr
      intro tv hm
      rw [h tv hm]
      rfl
    · have hz : List.map (fun tv => match aget σ tv.2 with
          | some x => tv.1 * x
          | none => 0) ts = List.map (fun _ => (0 : Int)) ts := by
        apply List.map_congr_left
        intro tv hm
        rw [h tv hm]
      rw [hz]
      have hsumz : (List.map (fun _ => (0 : Int)) ts).sum = 0 := by
        induction ts with
        | nil => rfl
        | cons y ys ihy => simp [ihy]
      rw [hsumz, add_zero]

theorem Constraint.pin_of_none {σ : Assignment} {c : Constraint}
    (h : ∀ tv ∈ c.lhs.terms, aget σ tv.2 = none) : Constraint.pin σ c = c := by
  unfold Constraint.pin
  rw [Aff.pin_self_of_none h]

theorem switchStatus_getD_none (t : Proxytree) {σ : Assignment}
    (hsw : ∀ k, aget σ (swName k) = none) (n : Nat) :
    ∀ tv ∈ ((switchStatusList t).getD n (Aff.cst 0)).terms, aget σ tv.2 = none := by
  by_cases hn : n < t.SWITCHES
  · unfold switchStatusList
    rw [getD_map_range _ hn]
    exact Aff.terms_var_none (hsw n)
  · unfold switchStatusList
    rw [List.getD_eq_getElem?_getD,
      List.getElem?_eq_none (by rw [List.length_map, List.length_range]; omega)]
    exact Aff.terms_cst_none σ 0

theorem c16gen_pin (t : Proxytree) (σ : Assignment) (lbl : Nat → String)
    (hfp : ∀ f n1 n2, aget σ (fpName f n1 n2) = none) :
    (c16gen t lbl).map (Constraint.pin σ) = c16gen t lbl := by
  conv_rhs => rw [← List.map_id (c16gen t lbl)]
  apply List.map_congr_left
  intro c hc
  show Constraint.pin σ c = c
  unfold c16gen at hc
  simp only [List.mem_flatMap, List.mem_map, List.mem_range] at hc
  obtain ⟨sw, _, f, _, rfl⟩ := hc
  apply Constraint.pin_of_none
  apply Aff.terms_sub_none
  · apply Aff.terms_sum_none
    intro x hx
    obtain ⟨n, _, rfl⟩ := List.mem_map.mp hx
    exact Aff.terms_var_none (hfp f n sw)
  · apply Aff.terms_sum_none
    intro x hx
    obtain ⟨n, _, rfl⟩ := List.mem_map.mp hx
    exact Aff.terms_var_none (hfp f sw n)

theorem c17gen_pin (t : Proxytree) (σ : Assignment) (lbl : Nat → String)
    (hfp : ∀ f n1 n2, aget σ (fpName f n1 n2) = none)
    (hon : ∀ n1 n2, aget σ (onName n1 n2) = none) :
    ∀ cs, c17gen t lbl = some cs → cs.map (Constraint.pin σ) = cs := by
  intro cs hcs
  conv_rhs => rw [← List.map_id cs]
  apply List.map_congr_left
  intro c hc
  show Constraint.pin σ c = c
  have hsome := mem_of_optTraverse hcs c hc
  simp only [List.mem_map, List.mem_range] at hsome
  obtain ⟨l, _, hl⟩ := hsome
  cases hg : get_nodes l t.link_dict with
  | none =>
    rw [hg] at hl
    exact absurd hl (by simp)
  | some p =>
    rw [hg] at hl
    have hc' : c = c17At t lbl l p.1 p.2 := by
      have := Option.some_inj.mp hl
      exact this.symm
    rw [hc']
    apply Constraint.pin_of_none
    apply Aff.terms_sub_none
    · apply Aff.terms_sum_none
      intro x hx
      obtain ⟨f, _, rfl⟩ := List.mem_map.mp hx
      apply Aff.terms_smul_none
      apply Aff.terms_add_none
      · exact Aff.terms_var_none (hfp f p.1 p.2)
      · exact Aff.terms_var_none (hfp f p.2 p.1)
    · apply Aff.terms_smul_none
      exact Aff.terms_var_none (hon p.1 p.2)

theorem c18At_pin (t : Proxytree) (σ : Assignment) (lbl : Nat → String)
    (hon : ∀ n1 n2, aget σ (onName n1 n2) = none)
    (hsw : ∀ k, aget σ (swName k) = none) (l n1 n2 : Nat) :
    Constraint.pin σ (c18At t lbl l n1 n2) = c18At t lbl l n1 n2 := by
  apply Constraint.pin_of_none
  apply Aff.terms_sub_none
  · exact Aff.terms_var_none (hon n1 n2)
  · exact switchStatus_getD_none t hsw n1

/-- C7 counterexample: on the `depth = 1` topology with the complete,
feasible placement `vm0 -> s0`, `vm1 -> s1`, pinning the joint model's
live variables with that assignment does NOT reproduce the routing model's
constraint set: some pinned joint constraint (e.g. the pinned C11/C12
placement constraints, or C13/C14/C19 in their inequality forms) is not in
the routing model's set. -/
theorem routing_joint_counterexample :
    (path_model (proxytreeDet 1 10 5 10 2 4)
      [("vm0-s0", 1), ("vm1-s1", 1), ("vm0-s1", 0), ("vm1-s0", 0),
        ("s0", 1), ("s1", 1)]).isSome
    ∧ (full_model (proxytreeDet 1 10 5 10 2 4)).isSome
    ∧ (∃ c ∈ ((full_model (proxytreeDet 1 10 5 10 2 4)).getD (Aff.cst 0, [])).2.map
          (Constraint.pin [("vm0-s0", 1), ("vm1-s1", 1), ("vm0-s1", 0), ("vm1-s0", 0),
            ("s0", 1), ("s1", 1)]),
        c ∉ ((path_model (proxytreeDet 1 10 5 10 2 4)
          [("vm0-s0", 1), ("vm1-s1", 1), ("vm0-s1", 0), ("vm1-s0", 0),
            ("s0", 1), ("s1", 1)]).getD (Aff.cst 0, [])).2) := by
  decide

/-- C7 amended: the two formulations agree only on the C16, C17 and C18
families: these are generated by common code (`c16gen`, `c17gen`, `c18At`
appear verbatim in both `path_model` and `full_model`) and are unchanged by
pinning, because their variables (`f..`, `on..`, `sw..`) are outside the
placement assignment.  The remaining families differ: the joint model
additionally generates C11/C12; its C13/C14 are unconditional inequalities
against (transposed) live `vm_status` variables where the routing model
conditionally generates equalities against constants; and its C19 at a
server link is an inequality against the live `server_status` variable
where the routing model emits an equality against the fixed constant. -/
theorem routing_joint_common_families (t : Proxytree) (σ : Assignment)
    (hfp : ∀ f n1 n2, aget σ (fpName f n1 n2) = none)
    (hon : ∀ n1 n2, aget σ (onName n1 n2) = none)
    (hsw : ∀ k, aget σ (swName k) = none) :
    ((c16gen t (dwaveLbl "C16")).map (Constraint.pin σ) = c16gen t (dwaveLbl "C16"))
    ∧ (∀ cs, c17gen t (dwaveLbl "C17") = some cs → cs.map (Constraint.pin σ) = cs)
    ∧ (∀ l n1 n2, Constraint.pin σ (c18At t (dwaveLbl "C18") l n1 n2)
        = c18At t (dwaveLbl "C18") l n1 n2) :=
  ⟨c16gen_pin t σ _ hfp, c17gen_pin t σ _ hfp hon,
   fun l n1 n2 => c18At_pin t σ _ hon hsw l n1 n2⟩

theorem ne_of_head {a b : String} (c1 c2 : Char) (h1 : a.data.head? = some c1)
    (h2 : b.data.head? = some c2) (hc : ¬ c1 = c2) : ¬ a = b := by
  intro he
  rw [he, h2] at h1
  exact hc (Option.some_inj.mp h1).symm

theorem ne_of_take2 {a b : String} (h : a.data.take 2 ≠ b.data.take 2) : ¬ a = b := by
  intro he
  exact h (by rw [he])

theorem find_str_cons_neg {k : String} {rest : List (String × Int)} (k0 : String)
    (v : Int) (h : ¬ k0 = k) :
    List.find? (fun e => e.1 == k) ((k0, v) :: rest)
      = List.find? (fun e => e.1 == k) rest := by
  simp [List.find?_cons, h]

theorem aget_cons_ne (σ : Assignment) (k k0 : String) (v : Int)
    (h : ¬ k0 = k) : aget ((k0, v) :: σ) k = aget σ k := by
  unfold aget
  rw [find_str_cons_neg k0 v h]

/-- The placement assignment used in the C7 witness holds no flow-edge
variable: all its keys start with `v` or `s`, never `f`. -/
theorem aget_sigma_fpName (f n1 n2 : Nat) :
    aget [("vm0-s0", 1), ("vm1-s1", 1), ("vm0-s1", 0), ("vm1-s0", 0),
        ("s0", 1), ("s1", 1)] (fpName f n1 n2) = none := by
  rw [aget_cons_ne _ (fpName f n1 n2) "vm0-s0" 1 (ne_of_head 'v' 'f' rfl rfl (by decide)),
    aget_cons_ne _ (fpName f n1 n2) "vm1-s1" 1 (ne_of_head 'v' 'f' rfl rfl (by decide)),
    aget_cons_ne _ (fpName f n1 n2) "vm0-s1" 0 (ne_of_head 'v' 'f' rfl rfl (by decide)),
    aget_cons_ne _ (fpName f n1 n2) "vm1-s0" 0 (ne_of_head 'v' 'f' rfl rfl (by decide)),
    aget_cons_ne _ (fpName f n1 n2) "s0" 1 (ne_of_head 's' 'f' rfl rfl (by decide)),
    aget_cons_ne _ (fpName f n1 n2) "s1" 1 (ne_of_head 's' 'f' rfl rfl (by decide))]
  rfl

/-- ... and no link-status variable (`on..`). -/
theorem aget_sigma_onName (n1 n2 : Nat) :
    aget [("vm0-s0", 1), ("vm1-s1", 1), ("vm0-s1", 0), ("vm1-s0", 0),
        ("s0", 1), ("s1", 1)] (onName n1 n2) = none := by
  rw [aget_cons_ne _ (onName n1 n2) "vm0-s0" 1 (ne_of_head 'v' 'o' rfl rfl (by decide)),
    aget_cons_ne _ (onName n1 n2) "vm1-s1" 1 (ne_of_head 'v' 'o' rfl rfl (by decide)),
    aget_cons_ne _ (onName n1 n2) "vm0-s1" 0 (ne_of_head 'v' 'o' rfl rfl (by decide)),
    aget_cons_ne _ (onName n1 n2) "vm1-s0" 0 (ne_of_head 'v' 'o' rfl rfl (by decide)),
    aget_cons_ne _ (onName n1 n2) "s0" 1 (ne_of_head 's' 'o' rfl rfl (by decide)),
    aget_cons_ne _ (onName n1 n2) "s1" 1 (ne_of_head 's' 'o' rfl rfl (by decide))]
  rfl

/-- ... and no switch-status variable (`sw..`: its second character `w`
differs from every key). -/
theorem aget_sigma_swName (k : Nat) :
    aget [("vm0-s0", 1), ("vm1-s1", 1), ("vm0-s1", 0), ("vm1-s0", 0),
        ("s0", 1), ("s1", 1)] (swName k) = none := by
  rw [aget_cons_ne _ (swName k) "vm0-s0" 1 (ne_of_take2
      (by rw [show (swName k).data.take 2 = ['s', 'w'] from rfl]; decide)),
    aget_cons_ne _ (swName k) "vm1-s1" 1 (ne_of_take2
      (by rw [show (swName k).data.take 2 = ['s', 'w'] from rfl]; decide)),
    aget_cons_ne _ (swName k) "vm0-s1" 0 (ne_of_take2
      (by rw [show (swName k).data.take 2 = ['s', 'w'] from rfl]; decide)),
    aget_cons_ne _ (swName k) "vm1-s0" 0 (ne_of_take2
      (by rw [show (swName k).data.take 2 = ['s', 'w'] from rfl]; decide)),
    aget_cons_ne _ (swName k) "s0" 1 (ne_of_take2
      (by rw [show (swName k).data.take 2 = ['s', 'w'] from rfl]; decide)),
    aget_cons_ne _ (swName k) "s1" 1 (ne_of_take2
      (by rw [show (swName k).data.take 2 = ['s', 'w'] from rfl]; decide))]
  rfl

/-- C7 amended witness: the `depth = 1` topology with the placement
assignment of the counterexample. -/
theorem routing_joint_common_families_witness :
    ((∀ f n1 n2, aget [("vm0-s0", 1), ("vm1-s1", 1), ("vm0-s1", 0), ("vm1-s0", 0),
        ("s0", 1), ("s1", 1)] (fpName f n1 n2) = none)
      ∧ (∀ n1 n2, aget [("vm0-s0", 1), ("vm1-s1", 1), ("vm0-s1", 0), ("vm1-s0", 0),
          ("s0", 1), ("s1", 1)] (onName n1 n2) = none)
      ∧ (∀ k, aget [("vm0-s0", 1), ("vm1-s1", 1), ("vm0-s1", 0), ("vm1-s0", 0),
          ("s0", 1), ("s1", 1)] (swName k) = none))
    ∧ (((c16gen (proxytreeDet 1 10 5 10 2 4) (dwaveLbl "C16")).map
          (Constraint.pin [("vm0-s0", 1), ("vm1-s1", 1), ("vm0-s1", 0), ("vm1-s0", 0),
            ("s0", 1), ("s1", 1)])
        = c16gen (proxytreeDet 1 10 5 10 2 4) (dwaveLbl "C16"))
      ∧ (∀ cs, c17gen (proxytreeDet 1 10 5 10 2 4) (dwaveLbl "C17") = some cs →
          cs.map (Constraint.pin [("vm0-s0", 1), ("vm1-s1", 1), ("vm0-s1", 0),
            ("vm1-s0", 0), ("s0", 1), ("s1", 1)]) = cs)
      ∧ (∀ l n1 n2,
          Constraint.pin [("vm0-s0", 1), ("vm1-s1", 1), ("vm0-s1", 0), ("vm1-s0", 0),
              ("s0", 1), ("s1", 1)]
            (c18At (proxytreeDet 1 10 5 10 2 4) (dwaveLbl "C18") l n1 n2)
          = c18At (proxytreeDet 1 10 5 10 2 4) (dwaveLbl "C18") l n1 n2)) :=
  ⟨⟨aget_sigma_fpName, aget_sigma_onName, aget_sigma_swName⟩,
   routing_joint_common_families (proxytreeDet 1 10 5 10 2 4)
     [("vm0-s0", 1), ("vm1-s1", 1), ("vm0-s1", 0), ("vm1-s0", 0), ("s0", 1), ("s1", 1)]
     aget_sigma_fpName aget_sigma_onName aget_sigma_swName⟩

/-- C9 amended witness at `depth = 2` with the bases of `main_DWAVE.py`. -/
theorem powcons_capacity_nonneg_witness :
    (1 ≤ 2 ∧ (0:Int) ≤ 10 ∧ (2:Int) ≤ 5 ∧ (5:Int) ≤ 10 ∧ (1:Int) ≤ 2)
    ∧ ((∀ x ∈ (proxytreeDet 2 10 5 10 2 4).server_capacity, 0 ≤ x)
       ∧ (∀ x ∈ (proxytreeDet 2 10 5 10 2 4).link_capacity, 0 ≤ x)
       ∧ (∀ x ∈ (proxytreeDet 2 10 5 10 2 4).idle_powcons, 0 ≤ x)
       ∧ (∀ x ∈ (proxytreeDet 2 10 5 10 2 4).dyn_powcons, 0 ≤ x)) :=
  ⟨⟨by decide, by decide, by decide, by decide, by decide⟩,
   powcons_capacity_nonneg 2 10 5 10 2 4 _ _ _ (by decide) (by decide) (by decide)
     (by decide) (by decide)⟩

end QOP
